import Mathlib

/-!
Verification development for the reconciliation core of a local issue-mirror
tool (Go sources: internal/issue, internal/app, internal/paths).  Pure Go
functions are embedded as executable Lean definitions; Go strings are modelled
as Lean strings (character lists; ASCII where Go uses byte/unicode helpers),
Go nil-able pointers as Option, Go slices as List, timestamps as Int.
The stateful Pull/Push loops are embedded as explicit state-passing functions
over a store mapping issue numbers to local files and snapshots ("originals").
-/

/-- ASCII whitespace, modelling the cutset relevant to strings.TrimSpace. -/
def isSpaceChar (c : Char) : Bool :=
  c = ' ' || c = '\t' || c = '\n' || c = '\r' || (c.toNat = 11) || (c.toNat = 12)

/-- Characters matched by the Go regexp class [a-zA-Z0-9]. -/
def isAlnumChar (c : Char) : Bool :=
  (('a' ≤ c && c ≤ 'z') || ('A' ≤ c && c ≤ 'Z') || ('0' ≤ c && c ≤ '9'))

/-- ASCII lower-casing of one character (strings.ToLower on ASCII input). -/
def toLowerChar (c : Char) : Char :=
  if 'A' ≤ c && c ≤ 'Z' then Char.ofNat (c.toNat + 32) else c

/-- strings.ToLower, restricted to the ASCII case mapping. -/
def lowerAscii (s : String) : String := String.mk (s.data.map toLowerChar)

/-- Strict lexicographic byte order on character lists (Go string <). -/
def lexLt : List Char → List Char → Bool
  | [], [] => false
  | [], _ :: _ => true
  | _ :: _, [] => false
  | a :: as, b :: bs =>
    if a.toNat < b.toNat then true
    else if b.toNat < a.toNat then false
    else lexLt as bs

/-- Go string comparison a < b. -/
def strLt (a b : String) : Bool := lexLt a.data b.data

/-- Insertion into a list sorted by strLt (helper for sort.Strings). -/
def insertStr (x : String) : List String → List String
  | [] => [x]
  | y :: ys => if strLt x y then x :: y :: ys else y :: insertStr x ys

/-- sort.Strings / sort.Slice with a < b less function (insertion sort; the
result on the duplicate-free inputs used below is the unique sorted order). -/
def sortStrs : List String → List String
  | [] => []
  | x :: xs => insertStr x (sortStrs xs)

/-- Leading/trailing ASCII whitespace trim on a character list. -/
def trimSpaceL (l : List Char) : List Char :=
  ((l.dropWhile isSpaceChar).reverse.dropWhile isSpaceChar).reverse

/-- strings.TrimSpace (ASCII whitespace). -/
def trimSpace (s : String) : String := String.mk (trimSpaceL s.data)

/-- The trim/skip/dedup pass shared by sortedStrings and sortedRefs: trims each
item, drops empties, keeps the first occurrence of each value (the Go seen-map),
skipping anything already in the accumulator. -/
def cleanStrings : List String → List String → List String
  | [], _ => []
  | x :: xs, seen =>
    let t := trimSpace x
    if t = "" || seen.contains t then cleanStrings xs seen
    else t :: cleanStrings xs (t :: seen)

/-- issue.sortedStrings: trim, drop blanks, dedup, sort ascending. -/
def sortedStrings (items : List String) : List String :=
  match items with
  | [] => []
  | _ :: _ => sortStrs (cleanStrings items [])

/-- issue.sortedRefs: IssueRef is a string type, and the Go body performs the
same trim/skip/dedup/sort pipeline on the underlying strings. -/
def sortedRefs (items : List String) : List String :=
  match items with
  | [] => []
  | _ :: _ => sortStrs (cleanStrings items [])

/-- strings.ReplaceAll(body, CRLF, LF): one left-to-right non-overlapping pass. -/
def replaceAllCRLF : List Char → List Char
  | '\r' :: '\n' :: rest => '\n' :: replaceAllCRLF rest
  | c :: rest => c :: replaceAllCRLF rest
  | [] => []

/-- issue.normalizeBody: CRLF pass, strip leading LF characters, and append a
trailing LF when the non-empty result lacks one. -/
def normalizeBody (s : String) : String :=
  let b := (replaceAllCRLF s.data).dropWhile (fun c => c = '\n')
  if b = [] then ""
  else if b.getLast? = some '\n' then String.mk b
  else String.mk (b ++ ['\n'])

/-- issue.IssueNumber.IsLocal / IssueRef.IsLocal: the temporary-id marker is a
leading capital T. -/
def isLocalId (s : String) : Bool :=
  match s.data with
  | 'T' :: _ => true
  | _ => false

/-- The central Issue entity (issue.Issue).  IssueNumber and IssueRef are string
types in the source and are modelled as String. -/
structure Issue where
  Number : String
  Title : String
  Labels : List String
  Assignees : List String
  Milestone : String
  IssueType : String
  Projects : List String
  State : String
  StateReason : Option String
  Parent : Option String
  BlockedBy : List String
  Blocks : List String
  SyncedAt : Option Int
  Body : String
  Author : String
  CreatedAt : Option Int
  UpdatedAt : Option Int
deriving DecidableEq, Repr

/-- The Go zero value Issue{}. -/
def emptyIssue : Issue :=
  { Number := "", Title := "", Labels := [], Assignees := [], Milestone := "",
    IssueType := "", Projects := [], State := "", StateReason := none,
    Parent := none, BlockedBy := [], Blocks := [], SyncedAt := none,
    Body := "", Author := "", CreatedAt := none, UpdatedAt := none }

/-- issue.Normalize: sort/dedup the set fields and normalize the body. -/
def Normalize (i : Issue) : Issue :=
  { i with
    Labels := sortedStrings i.Labels,
    Assignees := sortedStrings i.Assignees,
    Projects := sortedStrings i.Projects,
    BlockedBy := sortedRefs i.BlockedBy,
    Blocks := sortedRefs i.Blocks,
    Body := normalizeBody i.Body }

/-- issue.normalizeOptional. -/
def normalizeOptional (v : Option String) : String :=
  match v with
  | none => ""
  | some s => s

/-- issue.normalizeOptionalRef (IssueRef.String of the pointee, or empty). -/
def normalizeOptionalRef (v : Option String) : String :=
  match v with
  | none => ""
  | some s => s

/-- issue.stringSlicesEqual: same length and pointwise equal. -/
def stringSlicesEqual : List String → List String → Bool
  | [], [] => true
  | a :: as, b :: bs => a == b && stringSlicesEqual as bs
  | _, _ => false

/-- issue.refSlicesEqual (refs are strings). -/
def refSlicesEqual : List String → List String → Bool
  | [], [] => true
  | a :: as, b :: bs => a == b && refSlicesEqual as bs
  | _, _ => false

/-- issue.equalIssues: normalize both operands, blank out SyncedAt, then compare
every field (StateReason only when not ignored).  The informational fields
(Author, CreatedAt, UpdatedAt) are not compared in the source. -/
def equalIssues (a0 b0 : Issue) (ignoreStateReason : Bool) : Bool :=
  let a := Normalize a0
  let b := Normalize b0
  a.Number == b.Number &&
  a.Title == b.Title &&
  stringSlicesEqual a.Labels b.Labels &&
  stringSlicesEqual a.Assignees b.Assignees &&
  a.Milestone == b.Milestone &&
  a.IssueType == b.IssueType &&
  stringSlicesEqual a.Projects b.Projects &&
  a.State == b.State &&
  (ignoreStateReason || normalizeOptional a.StateReason == normalizeOptional b.StateReason) &&
  normalizeOptionalRef a.Parent == normalizeOptionalRef b.Parent &&
  refSlicesEqual a.BlockedBy b.BlockedBy &&
  refSlicesEqual a.Blocks b.Blocks &&
  a.Body == b.Body

/-- issue.EqualIgnoringSyncedAt (strict equality: SyncedAt only is ignored;
SyncedAt never participates in equalIssues, so blanking it is implicit here). -/
def EqualIgnoringSyncedAt (a b : Issue) : Bool := equalIssues a b false

/-- issue.EqualForConflictCheck: also ignores StateReason. -/
def EqualForConflictCheck (a b : Issue) : Bool := equalIssues a b true

/-- issue.FieldSet: one flag per comparable field. -/
structure FieldSet where
  Title : Bool
  Labels : Bool
  Assignees : Bool
  Milestone : Bool
  IssueType : Bool
  Projects : Bool
  State : Bool
  Parent : Bool
  BlockedBy : Bool
  Blocks : Bool
  Body : Bool
deriving DecidableEq, Repr

/-- The Go zero value FieldSet{} (no flag set). -/
def emptyFieldSet : FieldSet :=
  { Title := false, Labels := false, Assignees := false, Milestone := false,
    IssueType := false, Projects := false, State := false, Parent := false,
    BlockedBy := false, Blocks := false, Body := false }

/-- FieldSet.IsEmpty. -/
def FieldSet.IsEmpty (f : FieldSet) : Bool :=
  !f.Title && !f.Labels && !f.Assignees && !f.Milestone &&
  !f.IssueType && !f.Projects && !f.State && !f.Parent &&
  !f.BlockedBy && !f.Blocks && !f.Body

/-- FieldSet.Overlaps: flag-by-flag conjunction. -/
def FieldSet.Overlaps (f other : FieldSet) : FieldSet :=
  { Title := f.Title && other.Title,
    Labels := f.Labels && other.Labels,
    Assignees := f.Assignees && other.Assignees,
    Milestone := f.Milestone && other.Milestone,
    IssueType := f.IssueType && other.IssueType,
    Projects := f.Projects && other.Projects,
    State := f.State && other.State,
    Parent := f.Parent && other.Parent,
    BlockedBy := f.BlockedBy && other.BlockedBy,
    Blocks := f.Blocks && other.Blocks,
    Body := f.Body && other.Body }

/-- issue.ComputeChanges: which fields differ between base and changed, after
normalizing both. -/
def ComputeChanges (base0 changed0 : Issue) : FieldSet :=
  let base := Normalize base0
  let changed := Normalize changed0
  { Title := !(base.Title == changed.Title),
    Labels := !(stringSlicesEqual base.Labels changed.Labels),
    Assignees := !(stringSlicesEqual base.Assignees changed.Assignees),
    Milestone := !(base.Milestone == changed.Milestone),
    IssueType := !(base.IssueType == changed.IssueType),
    Projects := !(stringSlicesEqual base.Projects changed.Projects),
    State := !(base.State == changed.State),
    Parent := !(normalizeOptionalRef base.Parent == normalizeOptionalRef changed.Parent),
    BlockedBy := !(refSlicesEqual base.BlockedBy changed.BlockedBy),
    Blocks := !(refSlicesEqual base.Blocks changed.Blocks),
    Body := !(base.Body == changed.Body) }

/-- issue.MergeResult. -/
structure MergeResult where
  Merged : Issue
  OK : Bool
  ConflictingFields : FieldSet
  LocalChanges : FieldSet
  RemoteChanges : FieldSet
deriving DecidableEq, Repr

/-- issue.ThreeWayMerge: conflict iff the two change sets overlap; otherwise
start from the normalized remote and overlay every locally-changed field with
the (raw) local value. -/
def ThreeWayMerge (base localI remote : Issue) : MergeResult :=
  let localChanges := ComputeChanges base localI
  let remoteChanges := ComputeChanges base remote
  let conflicts := localChanges.Overlaps remoteChanges
  if !conflicts.IsEmpty then
    { Merged := emptyIssue, OK := false, ConflictingFields := conflicts,
      LocalChanges := localChanges, RemoteChanges := remoteChanges }
  else
    let m0 := Normalize remote
    let merged :=
      { m0 with
        Title := if localChanges.Title then localI.Title else m0.Title,
        Labels := if localChanges.Labels then localI.Labels else m0.Labels,
        Assignees := if localChanges.Assignees then localI.Assignees else m0.Assignees,
        Milestone := if localChanges.Milestone then localI.Milestone else m0.Milestone,
        IssueType := if localChanges.IssueType then localI.IssueType else m0.IssueType,
        Projects := if localChanges.Projects then localI.Projects else m0.Projects,
        State := if localChanges.State then localI.State else m0.State,
        Parent := if localChanges.Parent then localI.Parent else m0.Parent,
        BlockedBy := if localChanges.BlockedBy then localI.BlockedBy else m0.BlockedBy,
        Blocks := if localChanges.Blocks then localI.Blocks else m0.Blocks,
        Body := if localChanges.Body then localI.Body else m0.Body }
    { Merged := merged, OK := true, ConflictingFields := emptyFieldSet,
      LocalChanges := localChanges, RemoteChanges := remoteChanges }

/-- Modelled from the spec refinement target for the merge result: "start from
remote, then for every field flagged in localChanges, overlay the corresponding
value from local", with the remote baseline in its normalized form. -/
def specOverlayLocal (remoteN localI : Issue) (fs : FieldSet) : Issue :=
  { remoteN with
    Title := if fs.Title then localI.Title else remoteN.Title,
    Labels := if fs.Labels then localI.Labels else remoteN.Labels,
    Assignees := if fs.Assignees then localI.Assignees else remoteN.Assignees,
    Milestone := if fs.Milestone then localI.Milestone else remoteN.Milestone,
    IssueType := if fs.IssueType then localI.IssueType else remoteN.IssueType,
    Projects := if fs.Projects then localI.Projects else remoteN.Projects,
    State := if fs.State then localI.State else remoteN.State,
    Parent := if fs.Parent then localI.Parent else remoteN.Parent,
    BlockedBy := if fs.BlockedBy then localI.BlockedBy else remoteN.BlockedBy,
    Blocks := if fs.Blocks then localI.Blocks else remoteN.Blocks,
    Body := if fs.Body then localI.Body else remoteN.Body }

/-- C1: for every (base, local, remote) triple, if the two change sets relative
to base share no set flag then ThreeWayMerge succeeds (OK = true); if they share
at least one flag it fails (OK = false) and ConflictingFields is exactly the
flag-by-flag intersection (FieldSet.Overlaps) of the two change sets. -/
theorem threeWayMerge_classification (base localI remote : Issue) :
    (((ComputeChanges base localI).Overlaps (ComputeChanges base remote)).IsEmpty = true →
      (ThreeWayMerge base localI remote).OK = true) ∧
    (((ComputeChanges base localI).Overlaps (ComputeChanges base remote)).IsEmpty = false →
      (ThreeWayMerge base localI remote).OK = false ∧
      (ThreeWayMerge base localI remote).ConflictingFields =
        (ComputeChanges base localI).Overlaps (ComputeChanges base remote)) := by
  constructor <;> intro h <;> simp [ThreeWayMerge, h]

/-- C1 witness: a disjoint-changes triple merges with OK = true, and an
overlapping triple fails with the exact intersection reported. -/
theorem threeWayMerge_classification_witness :
    ((ComputeChanges emptyIssue { emptyIssue with Title := "a" }).Overlaps
        (ComputeChanges emptyIssue { emptyIssue with Body := "b" })).IsEmpty = true ∧
    (ThreeWayMerge emptyIssue { emptyIssue with Title := "a" }
        { emptyIssue with Body := "b" }).OK = true ∧
    ((ComputeChanges emptyIssue { emptyIssue with Title := "a" }).Overlaps
        (ComputeChanges emptyIssue { emptyIssue with Title := "c" })).IsEmpty = false ∧
    (ThreeWayMerge emptyIssue { emptyIssue with Title := "a" }
        { emptyIssue with Title := "c" }).OK = false ∧
    (ThreeWayMerge emptyIssue { emptyIssue with Title := "a" }
        { emptyIssue with Title := "c" }).ConflictingFields =
      (ComputeChanges emptyIssue { emptyIssue with Title := "a" }).Overlaps
        (ComputeChanges emptyIssue { emptyIssue with Title := "c" }) := by
  refine ⟨by decide, ?_, by decide, ?_, ?_⟩
  · exact (threeWayMerge_classification emptyIssue { emptyIssue with Title := "a" }
      { emptyIssue with Body := "b" }).1 (by decide)
  · exact ((threeWayMerge_classification emptyIssue { emptyIssue with Title := "a" }
      { emptyIssue with Title := "c" }).2 (by decide)).1
  · exact ((threeWayMerge_classification emptyIssue { emptyIssue with Title := "a" }
      { emptyIssue with Title := "c" }).2 (by decide)).2

/-- C5: when the local and remote change sets do not overlap, the merged issue
is exactly the normalized remote with, for precisely the fields flagged in
ComputeChanges(base, local), the value taken from local; every unflagged field
keeps the (normalized) remote value. -/
theorem threeWayMerge_overlay (base localI remote : Issue)
    (h : ((ComputeChanges base localI).Overlaps (ComputeChanges base remote)).IsEmpty = true) :
    (ThreeWayMerge base localI remote).OK = true ∧
    (ThreeWayMerge base localI remote).Merged =
      specOverlayLocal (Normalize remote) localI (ComputeChanges base localI) := by
  constructor <;> simp [ThreeWayMerge, specOverlayLocal, h]

/-- C5 witness: the overlay equality evaluated at a concrete disjoint triple. -/
theorem threeWayMerge_overlay_witness :
    ((ComputeChanges emptyIssue { emptyIssue with Labels := ["x"] }).Overlaps
        (ComputeChanges emptyIssue { emptyIssue with State := "closed" })).IsEmpty = true ∧
    (ThreeWayMerge emptyIssue { emptyIssue with Labels := ["x"] }
        { emptyIssue with State := "closed" }).OK = true ∧
    (ThreeWayMerge emptyIssue { emptyIssue with Labels := ["x"] }
        { emptyIssue with State := "closed" }).Merged =
      specOverlayLocal (Normalize { emptyIssue with State := "closed" })
        { emptyIssue with Labels := ["x"] }
        (ComputeChanges emptyIssue { emptyIssue with Labels := ["x"] }) := by
  refine ⟨by decide, ?_⟩
  exact threeWayMerge_overlay emptyIssue { emptyIssue with Labels := ["x"] }
    { emptyIssue with State := "closed" } (by decide)

/-- Characters kept verbatim by the slug regexp (the class complementary to
Go's [^a-z0-9]). -/
def isSlugChar (c : Char) : Bool := ('a' ≤ c && c ≤ 'z') || ('0' ≤ c && c ≤ '9')

/-- slugRegex.ReplaceAllString(lower, "-"): every maximal run of characters
outside [a-z0-9] collapses to a single dash.  The Bool flag records whether the
scanner is inside such a run (its dash already emitted). -/
def collapseRuns : Bool → List Char → List Char
  | _, [] => []
  | inRun, c :: rest =>
    if isSlugChar c then c :: collapseRuns false rest
    else if inRun then collapseRuns true rest
    else '-' :: collapseRuns true rest

/-- strings.Trim(s, cutset) for a one-character cutset. -/
def trimCharL (t : Char) (l : List Char) : List Char :=
  ((l.dropWhile (fun c => c = t)).reverse.dropWhile (fun c => c = t)).reverse

/-- strings.ReplaceAll(slug, double dash, dash): left-to-right non-overlapping. -/
def replaceDoubleDash : List Char → List Char
  | '-' :: '-' :: rest => '-' :: replaceDoubleDash rest
  | c :: rest => c :: replaceDoubleDash rest
  | [] => []

/-- issue.Slugify. -/
def Slugify (title : String) : String :=
  let lower := (trimSpaceL title.data).map toLowerChar
  if lower = [] then ""
  else
    String.mk (replaceDoubleDash (trimCharL '.' (trimCharL '-' (collapseRuns false lower))))

/-- issue.FileName: number, dash, slug (or "issue" for an empty slug), ".md". -/
def FileName (number title : String) : String :=
  let slug := Slugify title
  let slug2 := if slug = "" then "issue" else slug
  number ++ "-" ++ slug2 ++ ".md"

/-- issue.PathFor (filepath.Join on a directory and a file name). -/
def PathFor (dir number title : String) : String := dir ++ "/" ++ FileName number title

/-- filepath.Base for the paths produced here (everything after the last
separator; the inputs below are non-empty and never end in a separator). -/
def afterLastSlash (l : List Char) : List Char :=
  (l.reverse.takeWhile (fun c => c != '/')).reverse

/-- strings.TrimSuffix(base, ".md"). -/
def trimSuffixMd (l : List Char) : List Char :=
  let r := l.reverse
  if r.take 3 = ['d', 'm', '.'] then (r.drop 3).reverse else l

/-- issue.numberFromFilename: strip the directory and the ".md" suffix, then
keep everything before the first dash (the whole base when it has no dash,
which is what strings.Index returning -1 produces). -/
def numberFromFilename (path : String) : String :=
  String.mk ((trimSuffixMd (afterLastSlash path.data)).takeWhile (fun c => c != '-'))

/-- Whether a character list contains a CRLF pair. -/
def containsCRLF : List Char → Bool
  | '\r' :: '\n' :: _ => true
  | _ :: rest => containsCRLF rest
  | [] => false

theorem strDataAppend (a b : String) : (a ++ b).data = a.data ++ b.data := rfl

theorem dropWhileHeadFalse (p : Char → Bool) :
    ∀ (l : List Char) (c : Char), (l.dropWhile p).head? = some c → p c = false := by
  intro l
  induction l with
  | nil => intro c h; simp [List.dropWhile] at h
  | cons x xs ih =>
    intro c h
    by_cases hx : p x
    · rw [List.dropWhile_cons_of_pos hx] at h
      exact ih c h
    · rw [List.dropWhile_cons_of_neg hx] at h
      simp at h
      rw [h] at hx
      simpa using hx

theorem memReplaceAllCRLF :
    ∀ (l : List Char) (c : Char), c ∈ replaceAllCRLF l → c ∈ l ∨ c = '\n' := by
  intro l
  induction l using replaceAllCRLF.induct with
  | case1 rest ih =>
    intro c h
    rw [replaceAllCRLF] at h
    rcases List.mem_cons.mp h with h1 | h1
    · right; exact h1
    · rcases ih c h1 with h2 | h2
      · left; simp [h2]
      · right; exact h2
  | case2 x rest hne ih =>
    intro c h
    rw [replaceAllCRLF.eq_def] at h
    have h3 : c = x ∨ c ∈ replaceAllCRLF rest := by
      match x, rest, hne, h with
      | '\r', '\n' :: r2, hne, h => exact (hne r2 rfl rfl).elim
      | x, rest, hne, h =>
        cases x <;> cases rest <;> simp_all <;> tauto
    rcases h3 with h4 | h4
    · left; simp [h4]
    · rcases ih c h4 with h5 | h5
      · left; simp [h5]
      · right; exact h5
  | case3 => intro c h; simp [replaceAllCRLF] at h

theorem crlfNeedsCR : ∀ l : List Char, containsCRLF l = true → '\r' ∈ l := by
  intro l
  induction l using containsCRLF.induct with
  | case1 rest => intro _; simp
  | case2 x rest hne ih =>
    intro h
    rw [containsCRLF.eq_def] at h
    have h2 : containsCRLF rest = true := by
      match x, rest, hne, h with
      | '\r', '\n' :: r2, hne, h => exact (hne r2 rfl rfl).elim
      | x, rest, hne, h => cases x <;> cases rest <;> simp_all
    exact List.mem_cons_of_mem x (ih h2)
  | case3 => intro h; simp [containsCRLF] at h

theorem normalizeBodyCases (s : String) :
    ((replaceAllCRLF s.data).dropWhile (fun c => c = '\n') = [] ∧ normalizeBody s = "") ∨
    ((replaceAllCRLF s.data).dropWhile (fun c => c = '\n') ≠ [] ∧
      ((replaceAllCRLF s.data).dropWhile (fun c => c = '\n')).getLast? = some '\n' ∧
      (normalizeBody s).data = (replaceAllCRLF s.data).dropWhile (fun c => c = '\n')) ∨
    ((replaceAllCRLF s.data).dropWhile (fun c => c = '\n') ≠ [] ∧
      ((replaceAllCRLF s.data).dropWhile (fun c => c = '\n')).getLast? ≠ some '\n' ∧
      (normalizeBody s).data =
        (replaceAllCRLF s.data).dropWhile (fun c => c = '\n') ++ ['\n']) := by
  by_cases h1 : (replaceAllCRLF s.data).dropWhile (fun c => c = '\n') = []
  · exact Or.inl ⟨h1, by simp [normalizeBody, h1]⟩
  · by_cases h2 : ((replaceAllCRLF s.data).dropWhile (fun c => c = '\n')).getLast? = some '\n'
    · exact Or.inr (Or.inl ⟨h1, h2, by simp [normalizeBody, h1, h2, String.mk]⟩)
    · exact Or.inr (Or.inr ⟨h1, h2, by simp [normalizeBody, h1, h2, String.mk]⟩)

theorem memNormalizeBody (s : String) :
    ∀ c ∈ (normalizeBody s).data, c ∈ s.data ∨ c = '\n' := by
  intro c hc
  have hsub : ∀ d, d ∈ (replaceAllCRLF s.data).dropWhile (fun x => x = '\n') →
      d ∈ s.data ∨ d = '\n' := by
    intro d hd
    exact memReplaceAllCRLF s.data d
      ((List.dropWhile_suffix (fun x => x = '\n')).subset hd)
  rcases normalizeBodyCases s with ⟨_, he⟩ | ⟨_, _, he⟩ | ⟨_, _, he⟩
  · rw [he] at hc; simp at hc
  · rw [he] at hc; exact hsub c hc
  · rw [he] at hc
    rcases List.mem_append.mp hc with h2 | h2
    · exact hsub c h2
    · right; simpa using h2

/-- C8 counterexample: on the input CR CR LF a LF LF, the normalized body is
CR LF a LF LF — it still contains a CRLF pair (the single replacement pass
created a fresh one from the overlapping CR) and it ends in two consecutive
newline characters, so both the claimed "every CRLF converted" and the claimed
"never ends in more than one newline" fail. -/
theorem normalizeBody_claim_counterexample :
    normalizeBody "\r\r\na\n\n" = "\r\na\n\n" ∧
    containsCRLF (normalizeBody "\r\r\na\n\n").data = true ∧
    (normalizeBody "\r\r\na\n\n").data.reverse.take 2 = ['\n', '\n'] := by
  decide

theorem normalizeBodyHeadNe (s : String) :
    (normalizeBody s).data.head? ≠ some '\n' := by
  have hhd : ∀ c, ((replaceAllCRLF s.data).dropWhile
      (fun x => x = '\n')).head? = some c → ¬ c = '\n' := by
    intro c hc
    have h := dropWhileHeadFalse (fun x => x = '\n') (replaceAllCRLF s.data) c hc
    simpa using h
  rcases normalizeBodyCases s with ⟨_, he⟩ | ⟨hne, _, he⟩ | ⟨hne, _, he⟩
  · rw [he]; simp
  · rw [he]
    cases hb : (replaceAllCRLF s.data).dropWhile (fun x => x = '\n') with
    | nil => exact absurd hb hne
    | cons x xs =>
      have hx := hhd x (by rw [hb]; rfl)
      simp
      intro hcontra
      exact hx hcontra
  · rw [he]
    cases hb : (replaceAllCRLF s.data).dropWhile (fun x => x = '\n') with
    | nil => exact absurd hb hne
    | cons x xs =>
      have hx := hhd x (by rw [hb]; rfl)
      simp
      intro hcontra
      exact hx hcontra

theorem normalizeBodyLastNl (s : String) :
    normalizeBody s = "" ∨ (normalizeBody s).data.getLast? = some '\n' := by
  rcases normalizeBodyCases s with ⟨_, he⟩ | ⟨_, hl, he⟩ | ⟨_, _, he⟩
  · left; exact he
  · right; rw [he]; exact hl
  · right; rw [he]; simp

theorem normalizeBodyNoCRLF (s : String) (h : ∀ c ∈ s.data, ¬ c = '\r') :
    containsCRLF (normalizeBody s).data = false := by
  by_contra hcon
  have h2 : containsCRLF (normalizeBody s).data = true := by
    cases hval : containsCRLF (normalizeBody s).data
    · exact absurd hval hcon
    · rfl
  have h3 : '\r' ∈ (normalizeBody s).data := crlfNeedsCR _ h2
  rcases memNormalizeBody s '\r' h3 with h4 | h4
  · exact (h '\r' h4) rfl
  · simp at h4

/-- C8 (amended): normalizeBody replaces CRLF pairs in one left-to-right pass
(a CR directly in front of a replaced CRLF leaves a fresh CRLF behind), strips
every leading newline character, and appends a trailing newline only when the
non-empty result lacks one (extra trailing newlines are kept).  Hence: the
result never starts with a newline, it is empty or ends with a newline, and for
carriage-return-free input it contains no CRLF at all. -/
theorem normalizeBody_newline_discipline (s : String) :
    (normalizeBody s).data.head? ≠ some '\n' ∧
    (normalizeBody s = "" ∨ (normalizeBody s).data.getLast? = some '\n') ∧
    ((∀ c ∈ s.data, ¬ c = '\r') → containsCRLF (normalizeBody s).data = false) :=
  ⟨normalizeBodyHeadNe s, normalizeBodyLastNl s, normalizeBodyNoCRLF s⟩

/-- C8 witness: the amended properties evaluated on a concrete CR-free body. -/
theorem normalizeBody_newline_discipline_witness :
    (∀ c ∈ ("ok" : String).data, ¬ c = '\r') ∧
    containsCRLF (normalizeBody "ok").data = false := by
  refine ⟨by decide, ?_⟩
  exact (normalizeBody_newline_discipline "ok").2.2 (by decide)

theorem memCollapseRuns :
    ∀ (l : List Char) (b : Bool) (c : Char), c ∈ collapseRuns b l →
      isSlugChar c = true ∨ c = '-' := by
  intro l
  induction l with
  | nil => intro b c h; simp [collapseRuns] at h
  | cons x xs ih =>
    intro b c h
    by_cases hx : isSlugChar x
    · rw [collapseRuns, if_pos hx] at h
      rcases List.mem_cons.mp h with h1 | h1
      · left; rw [h1]; exact hx
      · exact ih false c h1
    · rw [collapseRuns, if_neg hx] at h
      cases b with
      | true => exact ih true c (by simpa using h)
      | false =>
        simp only [Bool.false_eq_true, if_false] at h
        rcases List.mem_cons.mp h with h1 | h1
        · right; exact h1
        · exact ih true c h1

theorem memTrimChar (t c : Char) (l : List Char) (h : c ∈ trimCharL t l) : c ∈ l := by
  unfold trimCharL at h
  rw [List.mem_reverse] at h
  have h2 := (List.dropWhile_suffix (fun x => x = t)).subset h
  rw [List.mem_reverse] at h2
  exact (List.dropWhile_suffix (fun x => x = t)).subset h2

theorem memReplaceDoubleDash :
    ∀ (l : List Char) (c : Char), c ∈ replaceDoubleDash l → c ∈ l := by
  intro l
  induction l using replaceDoubleDash.induct with
  | case1 rest ih =>
    intro c h
    rw [replaceDoubleDash] at h
    rcases List.mem_cons.mp h with h1 | h1
    · simp [h1]
    · simp [List.mem_cons_of_mem, ih c h1]
  | case2 x rest hne ih =>
    intro c h
    rw [replaceDoubleDash.eq_def] at h
    have h3 : c = x ∨ c ∈ replaceDoubleDash rest := by
      match x, rest, hne, h with
      | '-', '-' :: r2, hne, h => exact (hne r2 rfl rfl).elim
      | x, rest, hne, h => cases x <;> cases rest <;> simp_all
    rcases h3 with h4 | h4
    · simp [h4]
    · exact List.mem_cons_of_mem x (ih c h4)
  | case3 => intro c h; simp [replaceDoubleDash] at h

theorem slugCharset (t : String) :
    ∀ c ∈ (Slugify t).data, isSlugChar c = true ∨ c = '-' := by
  intro c hc
  unfold Slugify at hc
  by_cases h1 : (trimSpaceL t.data).map toLowerChar = []
  · simp [h1] at hc
  · simp only [h1, if_neg] at hc
    have h2 : c ∈ replaceDoubleDash (trimCharL '.' (trimCharL '-'
        (collapseRuns false ((trimSpaceL t.data).map toLowerChar)))) := hc
    have h3 := memReplaceDoubleDash _ c h2
    have h4 := memTrimChar '.' c _ h3
    have h5 := memTrimChar '-' c _ h4
    exact memCollapseRuns _ false c h5

theorem slugNoSlash (t : String) : ∀ c ∈ (Slugify t).data, ¬ c = '/' := by
  intro c hc hcontra
  rcases slugCharset t c hc with h | h
  · rw [hcontra] at h
    simp [isSlugChar] at h
  · rw [hcontra] at h
    simp at h

theorem takeWhileAll (p : Char → Bool) :
    ∀ l : List Char, (∀ c ∈ l, p c = true) → l.takeWhile p = l := by
  intro l
  induction l with
  | nil => intro _; rfl
  | cons x xs ih =>
    intro h
    rw [List.takeWhile_cons, if_pos (h x (by simp))]
    rw [ih (fun c hc => h c (List.mem_cons_of_mem x hc))]

theorem afterLastSlashId (l : List Char) (h : ∀ c ∈ l, ¬ c = '/') :
    afterLastSlash l = l := by
  unfold afterLastSlash
  rw [takeWhileAll (fun c => c != '/') l.reverse
    (fun c hc => by simpa using h c (List.mem_reverse.mp hc))]
  exact List.reverse_reverse l

theorem trimSuffixMdAppend (xs : List Char) :
    trimSuffixMd (xs ++ ['.', 'm', 'd']) = xs := by
  unfold trimSuffixMd
  simp

theorem takeWhileNotDashAppend :
    ∀ (n rest : List Char), (∀ c ∈ n, ¬ c = '-') →
      (n ++ '-' :: rest).takeWhile (fun c => c != '-') = n := by
  intro n
  induction n with
  | nil => intro rest _; simp [List.takeWhile_cons]
  | cons x xs ih =>
    intro rest h
    rw [List.cons_append, List.takeWhile_cons,
      if_pos (by simpa using h x (by simp))]
    rw [ih rest (fun c hc => h c (List.mem_cons_of_mem x hc))]

theorem strMkData (s : String) : String.mk s.data = s := rfl

theorem fileNameNumberRoundTrip (n t : String)
    (h1 : ∀ c ∈ n.data, ¬ c = '-') (h2 : ∀ c ∈ n.data, ¬ c = '/') :
    numberFromFilename (FileName n t) = n := by
  have hslug : ∀ c ∈ (if Slugify t = "" then "issue" else Slugify t).data, ¬ c = '/' := by
    by_cases hs : Slugify t = ""
    · rw [if_pos hs]; decide
    · rw [if_neg hs]; exact slugNoSlash t
  have hdata : (FileName n t).data =
      (n.data ++ '-' :: (if Slugify t = "" then "issue" else Slugify t).data) ++
        ['.', 'm', 'd'] := by
    show (n ++ "-" ++ (if Slugify t = "" then "issue" else Slugify t) ++ ".md").data = _
    rw [strDataAppend, strDataAppend, strDataAppend]
    simp [List.append_assoc]
  unfold numberFromFilename
  rw [hdata]
  rw [afterLastSlashId _ (by
    intro c hc
    rcases List.mem_append.mp hc with hc1 | hc1
    · rcases List.mem_append.mp hc1 with hc2 | hc2
      · exact h2 c hc2
      · rcases List.mem_cons.mp hc2 with hc3 | hc3
        · rw [hc3]; decide
        · exact hslug c hc3
    · intro hcontra
      rw [hcontra] at hc1
      simp at hc1)]
  rw [trimSuffixMdAppend]
  rw [takeWhileNotDashAppend n.data _ h1]

/-- C10 counterexample: the issue number "a/b" contains no dash, yet the number
extracted from its generated filename is "b", not "a/b" — filepath.Base cuts at
the path separator first. -/
theorem numberFromFileName_counterexample :
    (∀ c ∈ ("a/b" : String).data, ¬ c = '-') ∧
    numberFromFilename (FileName "a/b" "t") = "b" ∧
    ¬ numberFromFilename (FileName "a/b" "t") = "a/b" := by
  refine ⟨by decide, by decide, by decide⟩

/-- C10 (amended): for every issue number containing neither a dash nor a path
separator, and every title (including the empty one), the number extracted from
the generated filename equals the original number — the cosmetic title slug
never affects which id a file represents. -/
theorem numberFromFileName_roundTrip (n t : String)
    (h1 : ∀ c ∈ n.data, ¬ c = '-') (h2 : ∀ c ∈ n.data, ¬ c = '/') :
    numberFromFilename (FileName n t) = n :=
  fileNameNumberRoundTrip n t h1 h2

/-- C10 witness: a concrete number with the empty title. -/
theorem numberFromFileName_roundTrip_witness :
    numberFromFilename (FileName "42" "") = "42" :=
  numberFromFileName_roundTrip "42" "" (by decide) (by decide)

/-- The open container directory (paths layout: .issues/open). -/
def openDir : String := ".issues/open"

/-- The closed container directory (paths layout: .issues/closed). -/
def closedDir : String := ".issues/closed"

/-- app.IssueFile: a loaded local record, its path, and the state implied by
the container directory it was found in (loadLocalIssues sets State from the
directory, not from the file content). -/
structure IssueFile where
  Issue : Issue
  Path : String
  State : String
deriving DecidableEq, Repr

/-- A mutating filesystem operation issued by a command. -/
inductive FsOp where
  | rename (fromPath toPath : String)
  | write (path : String) (content : Issue)
deriving DecidableEq, Repr

/-- app.Close after the record lookup: a record already in the closed container
returns immediately; otherwise set state and trimmed reason, move the file to
the closed container, and rewrite it. -/
def CloseOp (file : IssueFile) (reasonRaw : String) : IssueFile × List FsOp :=
  if file.State = "closed" then (file, [])
  else
    let reason := trimSpace reasonRaw
    let reasonPtr : Option String := if reason = "" then none else some reason
    let i := { file.Issue with State := "closed", StateReason := reasonPtr }
    let newPath := PathFor closedDir i.Number i.Title
    ({ Issue := i, Path := newPath, State := file.State },
     [FsOp.rename file.Path newPath, FsOp.write newPath i])

/-- app.Reopen after the record lookup: a record already in the open container
returns immediately; otherwise set state open, clear the state reason, move the
file to the open container, and rewrite it. -/
def ReopenOp (file : IssueFile) : IssueFile × List FsOp :=
  if file.State = "open" then (file, [])
  else
    let i := { file.Issue with State := "open", StateReason := none }
    let newPath := PathFor openDir i.Number i.Title
    ({ Issue := i, Path := newPath, State := file.State },
     [FsOp.rename file.Path newPath, FsOp.write newPath i])

/-- C9: Close on a record whose file already sits in the closed container
succeeds while renaming nothing, writing nothing, and leaving the record — in
particular its state-reason — untouched; symmetrically Reopen on a record in
the open container changes nothing, so both are idempotent at the local store. -/
theorem close_reopen_idempotent (file : IssueFile) (reason : String) :
    (file.State = "closed" → CloseOp file reason = (file, [])) ∧
    (file.State = "open" → ReopenOp file = (file, [])) := by
  constructor <;> intro h <;> simp [CloseOp, ReopenOp, h]

/-- A concrete record in the closed container. -/
def closedSample : IssueFile :=
  { Issue :=
      { emptyIssue with
        Number := "7", State := "closed", StateReason := some "done" },
    Path := ".issues/closed/7-x.md", State := "closed" }

/-- A concrete record in the open container. -/
def openSample : IssueFile :=
  { Issue := { emptyIssue with Number := "8", State := "open" },
    Path := ".issues/open/8-y.md", State := "open" }

/-- C9 witness: a concrete closed-container record and a concrete
open-container record. -/
theorem close_reopen_idempotent_witness :
    CloseOp closedSample "because" = (closedSample, []) ∧
    ReopenOp openSample = (openSample, []) := by
  constructor
  · exact (close_reopen_idempotent closedSample "because").1 (by rfl)
  · exact (close_reopen_idempotent openSample "unused").2 (by rfl)

/-- The scanner of localRefPattern (#T followed by one or more alphanumerics)
with ReplaceAllStringFunc semantics: leftmost scan, greedy alphanumeric run,
matched region consumed, tokens found in the mapping replaced, everything else
copied.  The Bool records whether any token hit the mapping (the Go closure's
changed flag).  Fuel-indexed for structural recursion; every step consumes at
least one character, so list-length fuel never runs out. -/
def replaceRefsF (m : String → Option String) : Nat → List Char → List Char × Bool
  | _, [] => ([], false)
  | 0, c :: rest => (c :: rest, false)
  | Nat.succ n, c :: rest =>
    if c = '#' then
      match rest with
      | 'T' :: rest2 =>
        let run := rest2.takeWhile isAlnumChar
        if run = [] then
          let p := replaceRefsF m n rest
          ('#' :: p.1, p.2)
        else
          match m (String.mk ('T' :: run)) with
          | some real =>
            let p := replaceRefsF m n (rest2.dropWhile isAlnumChar)
            ('#' :: (real.data ++ p.1), true)
          | none =>
            let p := replaceRefsF m n (rest2.dropWhile isAlnumChar)
            ('#' :: 'T' :: (run ++ p.1), p.2)
      | _ =>
        let p := replaceRefsF m n rest
        ('#' :: p.1, p.2)
    else
      let p := replaceRefsF m n rest
      (c :: p.1, p.2)

/-- localRefPattern.ReplaceAllStringFunc on a whole string, plus the hit flag. -/
def replaceLocalRefs (m : String → Option String) (s : String) : String × Bool :=
  let p := replaceRefsF m s.data.length s.data
  (String.mk p.1, p.2)

/-- app.applyMappingToRefs: map every reference through the promotion mapping;
the flag records whether any reference was in the mapping. -/
def applyMappingToRefs (refs : List String) (m : String → Option String) :
    List String × Bool :=
  match refs with
  | [] => ([], false)
  | r :: rest =>
    let p := applyMappingToRefs rest m
    match m r with
    | some real => (real :: p.1, true)
    | none => (r :: p.1, p.2)

/-- app.applyMapping (paths.go revision, the one exercised by the repo tests):
rewrite delimited #T-tokens in body and title, then map the structured parent,
blocked_by and blocks references; no other field is touched. -/
def applyMapping (i : Issue) (m : String → Option String) : Issue × Bool :=
  let pb := replaceLocalRefs m i.Body
  let changedBody := pb.2 || !(pb.1 == i.Body)
  let pt := replaceLocalRefs m i.Title
  let changedTitle := pt.2 || !(pt.1 == i.Title)
  let pp : Option String × Bool :=
    match i.Parent with
    | some par =>
      match m par with
      | some real => (some real, true)
      | none => (i.Parent, false)
    | none => (i.Parent, false)
  let pbb := applyMappingToRefs i.BlockedBy m
  let pbl := applyMappingToRefs i.Blocks m
  ({ i with
      Body := pb.1, Title := pt.1, Parent := pp.1,
      BlockedBy := pbb.1, Blocks := pbl.1 },
    changedBody || changedTitle || pp.2 || pbb.2 || pbl.2)

/-- The promotion mapping of the C4 scenario: temporary id T1 became 42. -/
def mapT1 : String → Option String := fun s => if s = "T1" then some "42" else none

theorem dropWhileOfTakeWhileNil (p : Char → Bool) (l : List Char)
    (h : l.takeWhile p = []) : l.dropWhile p = l := by
  cases l with
  | nil => rfl
  | cons x xs =>
    rw [List.takeWhile_cons] at h
    by_cases hx : p x
    · rw [if_pos hx] at h; simp at h
    · rw [List.dropWhile_cons_of_neg hx]

theorem replaceRefsFNoHash (m : String → Option String) :
    ∀ (l : List Char) (n : Nat), l.length ≤ n → (∀ c ∈ l, ¬ c = '#') →
      replaceRefsF m n l = (l, false) := by
  intro l
  induction l with
  | nil => intro n _ _; cases n <;> rfl
  | cons x xs ih =>
    intro n hn hmem
    cases n with
    | zero => simp at hn
    | succ n2 =>
      have hx : ¬ x = '#' := hmem x (by simp)
      have hrec := ih n2 (by simpa using Nat.le_of_succ_le_succ hn)
        (fun c hc => hmem c (List.mem_cons_of_mem x hc))
      simp [replaceRefsF, hx, hrec]

theorem replaceRefsFSite (m : String → Option String) (hm : m "T1" = some "42") :
    ∀ (pre suf : List Char) (n : Nat),
      (pre ++ '#' :: 'T' :: '1' :: suf).length ≤ n →
      (∀ c ∈ pre, ¬ c = '#') → (∀ c ∈ suf, ¬ c = '#') →
      suf.takeWhile isAlnumChar = [] →
      replaceRefsF m n (pre ++ '#' :: 'T' :: '1' :: suf) =
        (pre ++ '#' :: '4' :: '2' :: suf, true) := by
  intro pre
  induction pre with
  | nil =>
    intro suf n hn hpre hsuf htw
    cases n with
    | zero => simp at hn
    | succ n2 =>
      have hrun : ('1' :: suf).takeWhile isAlnumChar = '1' :: suf.takeWhile isAlnumChar := by
        rw [List.takeWhile_cons, if_pos (by decide)]
      have hdrop : ('1' :: suf).dropWhile isAlnumChar = suf.dropWhile isAlnumChar := by
        rw [List.dropWhile_cons_of_pos (by decide)]
      have hsufdrop : suf.dropWhile isAlnumChar = suf := dropWhileOfTakeWhileNil _ _ htw
      have hlen : suf.length ≤ n2 := by
        simp [List.length_cons] at hn
        omega
      have hrec := replaceRefsFNoHash m suf n2 hlen hsuf
      simp only [List.nil_append]
      simp [replaceRefsF, hrun, htw, hdrop, hsufdrop, hm, hrec]
  | cons x xs ih =>
    intro suf n hn hpre hsuf htw
    cases n with
    | zero => simp at hn
    | succ n2 =>
      have hx : ¬ x = '#' := hpre x (by simp)
      have hrec := ih suf n2 (by simpa using Nat.le_of_succ_le_succ hn)
        (fun c hc => hpre c (List.mem_cons_of_mem x hc)) hsuf htw
      simp [replaceRefsF, hx, hrec]

theorem applyMappingToRefsSpec (m : String → Option String) :
    ∀ refs : List String,
      applyMappingToRefs refs m =
        (refs.map (fun r => (m r).getD r), refs.any (fun r => (m r).isSome)) := by
  intro refs
  induction refs with
  | nil => rfl
  | cons r rest ih =>
    cases hr : m r with
    | some real => simp [applyMappingToRefs, ih, hr]
    | none => simp [applyMappingToRefs, ih, hr]

/-- C4: in a corpus where the record with temporary id T1 is referenced in
another record's title text and body text (as the delimited token #T1), in its
parent field, and in its blocked_by field, applying the promotion mapping
T1 -> 42 produced by a Push rewrites every one of those reference sites to 42
(#T1 becomes #42 in the free text, the structured references become 42), every
reference field is rewritten exactly elementwise, no other field of the record
changes, and the record is flagged as changed (hence rewritten to disk).  The
free-text hypotheses pin the exhibited delimited occurrence: the surrounding
text contains no other # marker and the token is not extended by a trailing
alphanumeric. -/
theorem applyMapping_rewrites_references
    (i : Issue) (t1 t2 b1 b2 : List Char)
    (hT : i.Title.data = t1 ++ '#' :: 'T' :: '1' :: t2)
    (hT1 : ∀ c ∈ t1, ¬ c = '#') (hT2 : ∀ c ∈ t2, ¬ c = '#')
    (hT3 : t2.takeWhile isAlnumChar = [])
    (hB : i.Body.data = b1 ++ '#' :: 'T' :: '1' :: b2)
    (hB1 : ∀ c ∈ b1, ¬ c = '#') (hB2 : ∀ c ∈ b2, ¬ c = '#')
    (hB3 : b2.takeWhile isAlnumChar = [])
    (hP : i.Parent = some "T1")
    (hBB : "T1" ∈ i.BlockedBy) :
    (applyMapping i mapT1).1.Title.data = t1 ++ '#' :: '4' :: '2' :: t2 ∧
    (applyMapping i mapT1).1.Body.data = b1 ++ '#' :: '4' :: '2' :: b2 ∧
    (applyMapping i mapT1).1.Parent = some "42" ∧
    (applyMapping i mapT1).1.BlockedBy =
      i.BlockedBy.map (fun r => if r = "T1" then "42" else r) ∧
    (applyMapping i mapT1).1.Blocks =
      i.Blocks.map (fun r => if r = "T1" then "42" else r) ∧
    (applyMapping i mapT1).1.Number = i.Number ∧
    (applyMapping i mapT1).1.Labels = i.Labels ∧
    (applyMapping i mapT1).1.Assignees = i.Assignees ∧
    (applyMapping i mapT1).1.Milestone = i.Milestone ∧
    (applyMapping i mapT1).1.IssueType = i.IssueType ∧
    (applyMapping i mapT1).1.Projects = i.Projects ∧
    (applyMapping i mapT1).1.State = i.State ∧
    (applyMapping i mapT1).1.StateReason = i.StateReason ∧
    (applyMapping i mapT1).1.SyncedAt = i.SyncedAt ∧
    (applyMapping i mapT1).1.Author = i.Author ∧
    (applyMapping i mapT1).1.CreatedAt = i.CreatedAt ∧
    (applyMapping i mapT1).1.UpdatedAt = i.UpdatedAt ∧
    (applyMapping i mapT1).2 = true := by
  have hmap : mapT1 "T1" = some "42" := rfl
  have htitle := replaceRefsFSite mapT1 hmap t1 t2 i.Title.data.length
    (by rw [hT]) hT1 hT2 hT3
  rw [hT] at htitle
  simp only [List.length_append, List.length_cons] at htitle
  have hbody := replaceRefsFSite mapT1 hmap b1 b2 i.Body.data.length
    (by rw [hB]) hB1 hB2 hB3
  rw [hB] at hbody
  simp only [List.length_append, List.length_cons] at hbody
  have hmapfun : (fun r => (mapT1 r).getD r) =
      (fun r : String => if r = "T1" then "42" else r) := by
    funext r
    by_cases hr : r = "T1" <;> simp [mapT1, hr]
  refine ⟨?_, ?_, ?_, ?_, ?_, ?_, ?_, ?_, ?_, ?_, ?_, ?_, ?_, ?_, ?_, ?_, ?_, ?_⟩ <;>
    simp [applyMapping, replaceLocalRefs, hT, hB, htitle, hbody, hP, hmap,
      applyMappingToRefsSpec, hmapfun]

/-- The C4 scenario record: number 5 referencing T1 in all four sites. -/
def refSample : Issue :=
  { emptyIssue with
    Number := "5", Title := "Fix #T1 now", Body := "see #T1.",
    Parent := some "T1", BlockedBy := ["T1", "99"] }

/-- C4 witness: the rewrite evaluated on the concrete record. -/
theorem applyMapping_rewrites_references_witness :
    (applyMapping refSample mapT1).1.Title.data =
      "Fix ".data ++ '#' :: '4' :: '2' :: " now".data ∧
    (applyMapping refSample mapT1).1.Body.data =
      "see ".data ++ '#' :: '4' :: '2' :: ".".data ∧
    (applyMapping refSample mapT1).1.Parent = some "42" ∧
    (applyMapping refSample mapT1).1.BlockedBy =
      refSample.BlockedBy.map (fun r => if r = "T1" then "42" else r) := by
  have h := applyMapping_rewrites_references refSample
    "Fix ".data " now".data "see ".data ".".data
    (by decide) (by decide) (by decide) (by decide)
    (by decide) (by decide) (by decide) (by decide)
    (by decide) (by decide)
  exact ⟨h.1, h.2.1, h.2.2.1, h.2.2.2.1⟩

/-- The digit class of strconv.Atoi. -/
def charIsDigit (c : Char) : Bool := '0' ≤ c && c ≤ '9'

/-- Accumulating decimal parse of strconv.Atoi (64-bit overflow, which makes
Go fall back to the string form, is not modelled; the canonical references the
round-trip theorem quantifies over are unaffected). -/
def digitsToNatAux : Nat → List Char → Option Nat
  | acc, [] => some acc
  | acc, c :: rest =>
    if charIsDigit c then digitsToNatAux (acc * 10 + (c.toNat - 48)) rest
    else none

/-- One or more decimal digits. -/
def digitsToNat (l : List Char) : Option Nat :=
  match l with
  | [] => none
  | _ :: _ => digitsToNatAux 0 l

/-- strconv.Atoi: optional sign, then decimal digits. -/
def atoiInt (s : String) : Option Int :=
  match s.data with
  | '+' :: ds => (digitsToNat ds).map (fun n => Int.ofNat n)
  | '-' :: ds => (digitsToNat ds).map (fun n => -(Int.ofNat n))
  | ds => (digitsToNat ds).map (fun n => Int.ofNat n)

/-- IssueRef.MarshalYAML composed with the scalar decode of UnmarshalYAML: a
temporary reference stays a string, a numeric reference is emitted as a YAML
integer and decoded back as its canonical decimal spelling, anything else is
kept verbatim. -/
def refWire (r : String) : String :=
  if isLocalId r then r
  else
    match atoiInt r with
    | some n => toString n
    | none => r

/-- The wire trip of the optional parent reference: MarshalYAML returns nil for
an empty reference, which serializes as YAML null and decodes to a nil
pointer. -/
def parentWire (p : Option String) : Option String :=
  match p with
  | none => none
  | some r => if r = "" then none else some (refWire r)

/-- issue.InfoSection. -/
structure InfoSection where
  Author : String
  CreatedAt : Option Int
  UpdatedAt : Option Int
deriving DecidableEq, Repr

/-- issue.FrontMatter: the metadata block exactly as Render populates it. -/
structure FrontMatter where
  Title : String
  Labels : List String
  Assignees : List String
  Milestone : String
  IssueType : String
  Projects : List String
  State : String
  StateReason : Option String
  Parent : Option String
  BlockedBy : List String
  Blocks : List String
  SyncedAt : Option Int
  Info : Option InfoSection
deriving DecidableEq, Repr

/-- Render followed by Parse (with the id re-derived from the generated
filename, as ParseFile does): the front matter is built exactly as Render
builds it; the YAML text layer is modelled as a faithful structured key/value
block for strings, string lists and timestamps, while references go through
the MarshalYAML/UnmarshalYAML canonicalization (refWire / parentWire) and the
body is written through normalizeBody and normalized again on parse. -/
def RenderParse (i : Issue) : Issue :=
  let fm : FrontMatter :=
    { Title := i.Title,
      Labels := sortedStrings i.Labels,
      Assignees := sortedStrings i.Assignees,
      Milestone := i.Milestone,
      IssueType := i.IssueType,
      Projects := sortedStrings i.Projects,
      State := i.State,
      StateReason := i.StateReason,
      Parent := i.Parent,
      BlockedBy := sortedRefs i.BlockedBy,
      Blocks := sortedRefs i.Blocks,
      SyncedAt := i.SyncedAt,
      Info :=
        if !(i.Author == "") || i.CreatedAt.isSome || i.UpdatedAt.isSome then
          some { Author := i.Author, CreatedAt := i.CreatedAt, UpdatedAt := i.UpdatedAt }
        else none }
  { Number := numberFromFilename (FileName i.Number i.Title),
    Title := fm.Title,
    Labels := fm.Labels,
    Assignees := fm.Assignees,
    Milestone := fm.Milestone,
    IssueType := fm.IssueType,
    Projects := fm.Projects,
    State := fm.State,
    StateReason := fm.StateReason,
    Parent := parentWire fm.Parent,
    BlockedBy := fm.BlockedBy.map refWire,
    Blocks := fm.Blocks.map refWire,
    SyncedAt := fm.SyncedAt,
    Body := normalizeBody (normalizeBody i.Body),
    Author := match fm.Info with
      | some info => info.Author
      | none => "",
    CreatedAt := match fm.Info with
      | some info => info.CreatedAt
      | none => none,
    UpdatedAt := match fm.Info with
      | some info => info.UpdatedAt
      | none => none }

/-- Pointwise update of a string-keyed partial map (one file write/rename). -/
def updFun {α : Type} (f : String → Option α) (k : String) (v : Option α) :
    String → Option α := fun x => if x = k then v else f x

/-- The local store: mirror files keyed by issue number (loadLocalIssues /
localByNumber) and snapshot files keyed by issue number (readOriginalIssue /
writeOriginalIssue). -/
structure Store where
  locals : String → Option IssueFile
  originals : String → Option Issue

/-- Per-record Pull outcome (conflict list, unchanged counter, A/U report). -/
inductive PullClass where
  | conflict
  | unchanged
  | added
  | updated
deriving DecidableEq, Repr

/-- The in-loop preprocessing of a fetched remote record: state lower-cased,
synced_at stamped with the current time. -/
def pulledIssue (now : Int) (r : Issue) : Issue :=
  { r with State := lowerAscii r.State, SyncedAt := some now }

/-- The target path of a pulled record: open or closed container from the
record state, file name from number and title. -/
def pullTargetPath (r1 : Issue) : String :=
  PathFor (if r1.State = "closed" then closedDir else openDir) r1.Number r1.Title

/-- The IssueFile that the next loadLocalIssues produces for the file the loop
just wrote at the target path: ParseFile of the Render output (RenderParse),
with the State field overridden by the container directory the file sits in
(loadLocalIssues sets parsed.State = dir.State).  filepath.Base makes the
number derived from the full path equal the one derived from the bare file
name. -/
def pulledFileImage (r1 : Issue) : IssueFile :=
  let dirState := if r1.State = "closed" then "closed" else "open"
  { Issue := { RenderParse r1 with State := dirState },
    Path := pullTargetPath r1, State := dirState }

/-- The Issue that the next readOriginalIssue produces for the snapshot the
loop just wrote: ParseFile of the Render output, with the number re-derived
from the snapshot file name, which is the bare number plus ".md" (no slug). -/
def snapshotWire (i : Issue) : Issue :=
  { RenderParse i with Number := numberFromFilename (i.Number ++ ".md") }

/-- The loop's localChanged boolean: a local copy exists and either the
snapshot is absent or the local copy differs from it under strict equality. -/
def pullLocalChanged (localOpt : Option IssueFile) (origOpt : Option Issue) : Bool :=
  match localOpt, origOpt with
  | some lf, some o => !(EqualIgnoringSyncedAt lf.Issue o)
  | some _, none => true
  | none, _ => false

/-- The loop's contentChanged boolean: no local copy, or the local copy
differs from the pulled record under strict equality. -/
def pullContentChanged (localOpt : Option IssueFile) (r1 : Issue) : Bool :=
  match localOpt with
  | some lf => !(EqualIgnoringSyncedAt lf.Issue r1)
  | none => true

/-- The loop's pathChanged boolean: a local copy exists at a different path. -/
def pullPathChanged (localOpt : Option IssueFile) (newPath : String) : Bool :=
  match localOpt with
  | some lf => !(lf.Path == newPath)
  | none => false

/-- One iteration of the Pull reconciliation loop (app.Pull): local lookup in
the localByNumber snapshot taken at run start, snapshot lookup in the current
store, the conflict gate, the unchanged check, and the rename+write+snapshot
write collapsed into a store update.  A write stores what the files will read
back as on the next load: the ParseFile image of the Render output (not the
in-memory record), since Parse after Render is not the identity.  Cancellation,
output formatting and the catalog refreshes are outside the reconciliation
semantics and not modelled. -/
def pullStep (now : Int) (force : Bool) (snap : String → Option IssueFile)
    (fs : Store) (remote : Issue) : Store × PullClass :=
  let r1 := pulledIssue now remote
  let num := r1.Number
  let localOpt := snap num
  let origOpt := fs.originals num
  if localOpt.isSome && pullLocalChanged localOpt origOpt && !force then
    (fs, PullClass.conflict)
  else
    let newPath := pullTargetPath r1
    if origOpt.isSome && !pullContentChanged localOpt r1 &&
        !pullPathChanged localOpt newPath then
      (fs, PullClass.unchanged)
    else
      ({ locals := updFun fs.locals num (some (pulledFileImage r1)),
         originals := updFun fs.originals num (some (snapshotWire r1)) },
       if localOpt.isSome then PullClass.updated else PullClass.added)

/-- The Pull loop over the fetched records: the localByNumber snapshot is fixed
at entry, the snapshot directory is read and written as the loop progresses. -/
def pullRunAux (now : Int) (force : Bool) (snap : String → Option IssueFile)
    (fs : Store) : List Issue → Store × List PullClass
  | [] => (fs, [])
  | r :: rest =>
    let p := pullStep now force snap fs r
    let q := pullRunAux now force snap p.1 rest
    (q.1, p.2 :: q.2)

/-- A whole Pull pass: the local lookup table is loaded once at entry. -/
def pullRun (now : Int) (force : Bool) (fs : Store) (remotes : List Issue) :
    Store × List PullClass :=
  pullRunAux now force fs.locals fs remotes

/-- C3: a fetched remote record whose local copy exists and differs from its
snapshot under strict equality — or whose snapshot is absent — is recorded as a
conflict by Pull without force: the store (local file and snapshot) is returned
untouched whatever the remote record contains, and the loop continues with the
remaining records exactly as if the record had been dropped from the batch. -/
theorem pull_conflict_precedence (now : Int) (snap : String → Option IssueFile)
    (fs : Store) (remote : Issue) (rest : List Issue) (lf : IssueFile)
    (hLocal : snap remote.Number = some lf)
    (hChanged : fs.originals remote.Number = none ∨
      ∃ o, fs.originals remote.Number = some o ∧
        EqualIgnoringSyncedAt lf.Issue o = false) :
    pullStep now false snap fs remote = (fs, PullClass.conflict) ∧
    pullRunAux now false snap fs (remote :: rest) =
      ((pullRunAux now false snap fs rest).1,
        PullClass.conflict :: (pullRunAux now false snap fs rest).2) := by
  have hstep : pullStep now false snap fs remote = (fs, PullClass.conflict) := by
    rcases hChanged with h | ⟨o, ho, heq⟩
    · simp [pullStep, pullLocalChanged, pulledIssue, hLocal, h]
    · simp [pullStep, pullLocalChanged, pulledIssue, hLocal, ho, heq]
  exact ⟨hstep, by simp [pullRunAux, hstep]⟩

/-- A concrete dirty local record for the C3 witness. -/
def dirtyFile : IssueFile :=
  { Issue :=
      { emptyIssue with Number := "7", Title := "local edit", State := "open" },
    Path := ".issues/open/7-local-edit.md", State := "open" }

/-- The snapshot the dirty record diverged from. -/
def dirtyOrig : Issue := { emptyIssue with Number := "7", Title := "orig", State := "open" }

/-- A store holding exactly the dirty record and its snapshot. -/
def dirtyStore : Store :=
  { locals := fun n => if n = "7" then some dirtyFile else none,
    originals := fun n => if n = "7" then some dirtyOrig else none }

/-- A remote record for number 7 with arbitrary fresh content. -/
def remote7 : Issue :=
  { emptyIssue with
    Number := "7", Title := "remote rewrite", State := "open", Labels := ["bug"] }

/-- C3 witness: the conflict gate evaluated on the concrete dirty record. -/
theorem pull_conflict_precedence_witness :
    pullStep 1 false dirtyStore.locals dirtyStore remote7 =
      (dirtyStore, PullClass.conflict) ∧
    pullRunAux 1 false dirtyStore.locals dirtyStore [remote7] =
      (dirtyStore, [PullClass.conflict]) := by
  have h := pull_conflict_precedence 1 dirtyStore.locals dirtyStore remote7 []
    dirtyFile (by decide)
    (Or.inr ⟨dirtyOrig, by decide, by decide⟩)
  exact ⟨h.1, h.2⟩

/-- Per-record Push outcome. -/
inductive PushClass where
  | skippedLocal
  | unchanged
  | wouldPush
  | conflict
  | pushed
deriving DecidableEq, Repr

/-- ghcli.IssueChange, restricted to the fields the push loop populates. -/
structure IssueChange where
  Title : Option String
  Body : Option String
  Milestone : Option String
  AddLabels : List String
  RemoveLabels : List String
  AddAssignees : List String
  RemoveAssignees : List String
  StateReason : Option String
  StateTransition : Option String
deriving DecidableEq, Repr

/-- First-occurrence dedup (the Go set-map keyed iteration before sorting). -/
def dedupKeep : List String → List String → List String
  | [], _ => []
  | x :: xs, seen =>
    if seen.contains x then dedupKeep xs seen else x :: dedupKeep xs (x :: seen)

/-- app.diffStringSet: the sorted additions and removals between two slices
viewed as sets. -/
def diffStringSet (old new : List String) : List String × List String :=
  (sortStrs (dedupKeep (new.filter (fun x => !(old.contains x))) []),
   sortStrs (dedupKeep (old.filter (fun x => !(new.contains x))) []))

/-- app.diffIssue: the remote-call change set between the baseline and the
local record. -/
def diffIssue (original localI : Issue) : IssueChange :=
  let ls := diffStringSet original.Labels localI.Labels
  let asg := diffStringSet original.Assignees localI.Assignees
  { Title := if original.Title == localI.Title then none else some localI.Title,
    Body := if original.Body == localI.Body then none else some localI.Body,
    Milestone := if original.Milestone == localI.Milestone then none
      else some localI.Milestone,
    AddLabels := ls.1, RemoveLabels := ls.2,
    AddAssignees := asg.1, RemoveAssignees := asg.2,
    StateTransition :=
      if !(original.State == "") && !(original.State == localI.State) then
        (if localI.State = "closed" then some "close"
         else if localI.State = "open" then some "reopen" else none)
      else none,
    StateReason :=
      if (original.StateReason.isSome || localI.StateReason.isSome) &&
          !(normalizeOptional original.StateReason ==
            normalizeOptional localI.StateReason) then
        some (normalizeOptional localI.StateReason)
      else none }

/-- app.hasEdits. -/
def hasEdits (change : IssueChange) : Bool :=
  change.Title.isSome || change.Body.isSome || change.Milestone.isSome ||
  !change.AddLabels.isEmpty || !change.RemoveLabels.isEmpty ||
  !change.AddAssignees.isEmpty || !change.RemoveAssignees.isEmpty

/-- A mutating remote call issued by the push loop for one record. -/
inductive PushCall where
  | closeIssue (num reason : String)
  | reopenIssue (num : String)
  | editIssue (num : String) (change : IssueChange)
  | syncRelationships (num : String)
deriving DecidableEq, Repr

/-- The write path of the push loop once no conflict was detected: the state
transition first, the batched field edit when present, the relationship sync,
then local file and snapshot overwritten with the synced record. -/
def pushApply (now : Int) (fs : Store) (item : IssueFile) (change : IssueChange) :
    Store × PushClass × List PushCall :=
  let num := item.Issue.Number
  let calls1 : List PushCall :=
    match change.StateTransition with
    | some t =>
      if t = "close" then
        [PushCall.closeIssue num (normalizeOptional change.StateReason)]
      else if t = "reopen" then [PushCall.reopenIssue num]
      else []
    | none => []
  let calls2 : List PushCall :=
    if hasEdits change then [PushCall.editIssue num change] else []
  let newIssue := { item.Issue with SyncedAt := some now }
  ({ locals := updFun fs.locals num (some { item with Issue := newIssue }),
     originals := updFun fs.originals num (some newIssue) },
   PushClass.pushed,
   calls1 ++ calls2 ++ [PushCall.syncRelationships num])

/-- One iteration of the Push reconciliation loop for a record in scope
(paths.go revision; the phased revision in push.go has the same skip, dry-run
and conflict gates and differs only in using the fetched remote as baseline
when no snapshot exists): temporary ids are skipped (they go through the
promotion path), a record equal to its snapshot is counted up to date with no
remote fetch, then the freshly fetched remote (already enriched with
relationships) is compared to the snapshot under conflict-check equality and a
difference records a conflict and skips every call and write for this id. -/
def pushStep (now : Int) (dryRun : Bool) (fs : Store) (item : IssueFile)
    (remote : Issue) : Store × PushClass × List PushCall :=
  if isLocalId item.Issue.Number then (fs, PushClass.skippedLocal, [])
  else
    let origOpt := fs.originals item.Issue.Number
    let localChanged :=
      match origOpt with
      | none => true
      | some o => !(EqualIgnoringSyncedAt item.Issue o)
    if !localChanged then (fs, PushClass.unchanged, [])
    else if dryRun then (fs, PushClass.wouldPush, [])
    else
      match origOpt with
      | some o =>
        if !(EqualForConflictCheck remote o) then (fs, PushClass.conflict, [])
        else pushApply now fs item (diffIssue o item.Issue)
      | none => pushApply now fs item (diffIssue emptyIssue item.Issue)

/-- C2 (amended): for a non-temporary record that has a snapshot and whose
local content differs from it (ignoring synced_at) — i.e. a record Push
actually fetches the remote for — a remote that differs from the snapshot
under conflict-check equality records a conflict: no state-transition, edit or
relationship call is issued for the id and the store (local file and snapshot)
is returned untouched, even when the remote already equals the local record's
desired state.  A record equal to its snapshot is instead counted up to date
(no fetch, no calls, no conflict entry). -/
theorem push_conflict_precedence (now : Int) (fs : Store) (item : IssueFile)
    (remote o : Issue)
    (hNotLocal : isLocalId item.Issue.Number = false)
    (hOrig : fs.originals item.Issue.Number = some o)
    (hDirty : EqualIgnoringSyncedAt item.Issue o = false)
    (hRemote : EqualForConflictCheck remote o = false) :
    pushStep now false fs item remote = (fs, PushClass.conflict, []) := by
  simp [pushStep, hNotLocal, hOrig, hDirty, hRemote]

/-- The C2 scenario local record: labels bug, urgent (the operator added
urgent). -/
def pushFile : IssueFile :=
  { Issue :=
      { emptyIssue with
        Number := "9", Title := "t", State := "open", Labels := ["bug", "urgent"] },
    Path := ".issues/open/9-t.md", State := "open" }

/-- The C2 scenario snapshot: labels bug only. -/
def pushOrig : Issue :=
  { emptyIssue with Number := "9", Title := "t", State := "open", Labels := ["bug"] }

/-- The C2 scenario remote at push time: another actor already pushed
bug, urgent — the remote equals the local desired state. -/
def pushRemote : Issue :=
  { emptyIssue with
    Number := "9", Title := "t", State := "open", Labels := ["bug", "urgent"],
    SyncedAt := some 3 }

/-- The store holding the C2 scenario record and snapshot. -/
def pushStore : Store :=
  { locals := fun n => if n = "9" then some pushFile else none,
    originals := fun n => if n = "9" then some pushOrig else none }

/-- C2 witness: the conflict gate fires on the concrete scenario even though
the remote already matches the local desired state. -/
theorem push_conflict_precedence_witness :
    EqualForConflictCheck pushRemote pushOrig = false ∧
    EqualIgnoringSyncedAt pushFile.Issue pushOrig = false ∧
    EqualForConflictCheck pushRemote pushFile.Issue = true ∧
    pushStep 5 false pushStore pushFile pushRemote =
      (pushStore, PushClass.conflict, []) := by
  refine ⟨by decide, by decide, by decide, ?_⟩
  exact push_conflict_precedence 5 pushStore pushFile pushRemote pushOrig
    (by decide) (by decide) (by decide) (by decide)

/-- C2 counterexample: the claim as stated quantifies over every record with a
snapshot; for a record whose local content equals its snapshot, Push counts the
record up to date and records no conflict even though the (server-side) remote
differs from the snapshot under conflict-check equality — the conflict entry
the claim demands is never made. -/
theorem push_conflict_claim_counterexample :
    EqualForConflictCheck pushRemote pushOrig = false ∧
    (pushStep 5 false
        { locals := fun n => if n = "9" then some { pushFile with Issue := pushOrig } else none,
          originals := fun n => if n = "9" then some pushOrig else none }
        { pushFile with Issue := pushOrig } pushRemote).2.1 = PushClass.unchanged ∧
    ¬ (pushStep 5 false
        { locals := fun n => if n = "9" then some { pushFile with Issue := pushOrig } else none,
          originals := fun n => if n = "9" then some pushOrig else none }
        { pushFile with Issue := pushOrig } pushRemote).2.1 = PushClass.conflict := by
  refine ⟨by decide, by decide, by decide⟩

theorem stringSlicesEqualRefl : ∀ l : List String, stringSlicesEqual l l = true := by
  intro l
  induction l with
  | nil => rfl
  | cons x xs ih => simp [stringSlicesEqual, ih]

theorem refSlicesEqualRefl : ∀ l : List String, refSlicesEqual l l = true := by
  intro l
  induction l with
  | nil => rfl
  | cons x xs ih => simp [refSlicesEqual, ih]

theorem equalIssuesRefl (a : Issue) (f : Bool) : equalIssues a a f = true := by
  simp [equalIssues, stringSlicesEqualRefl, refSlicesEqualRefl]

theorem pulledNumber (now : Int) (r : Issue) : (pulledIssue now r).Number = r.Number := rfl

theorem equalPulledIrrel (a : Issue) (n1 n2 : Int) (r : Issue) (f : Bool) :
    equalIssues a (pulledIssue n1 r) f = equalIssues a (pulledIssue n2 r) f := rfl

theorem equalPulledSelf (n1 n2 : Int) (r : Issue) (f : Bool) :
    equalIssues (pulledIssue n1 r) (pulledIssue n2 r) f = true := by
  rw [equalPulledIrrel (pulledIssue n1 r) n2 n1 r f]
  exact equalIssuesRefl (pulledIssue n1 r) f

theorem contentPulledIrrel (lo : Option IssueFile) (n1 n2 : Int) (r : Issue) :
    pullContentChanged lo (pulledIssue n1 r) = pullContentChanged lo (pulledIssue n2 r) := by
  cases lo with
  | none => rfl
  | some lf =>
    simp only [pullContentChanged, EqualIgnoringSyncedAt]
    rw [equalPulledIrrel lf.Issue n1 n2 r false]

theorem pathPulledIrrel (n1 n2 : Int) (r : Issue) :
    pullTargetPath (pulledIssue n1 r) = pullTargetPath (pulledIssue n2 r) := rfl

theorem pullStepOtherKeys (now : Int) (force : Bool) (snap : String → Option IssueFile)
    (fs : Store) (r : Issue) (k : String) (hk : ¬ k = r.Number) :
    (pullStep now force snap fs r).1.locals k = fs.locals k ∧
    (pullStep now force snap fs r).1.originals k = fs.originals k := by
  simp only [pullStep]
  split
  · exact ⟨rfl, rfl⟩
  · split
    · exact ⟨rfl, rfl⟩
    · constructor <;> simp [updFun, pulledNumber, hk]

theorem pullRunAuxOtherKeys (now : Int) (force : Bool) :
    ∀ (rs : List Issue) (snap : String → Option IssueFile) (fs : Store) (k : String),
      (∀ r ∈ rs, ¬ k = r.Number) →
      (pullRunAux now force snap fs rs).1.locals k = fs.locals k ∧
      (pullRunAux now force snap fs rs).1.originals k = fs.originals k := by
  intro rs
  induction rs with
  | nil => intro snap fs k _; exact ⟨rfl, rfl⟩
  | cons r rest ih =>
    intro snap fs k hk
    have hstep := pullStepOtherKeys now force snap fs r k (hk r (by simp))
    have hrec := ih snap (pullStep now force snap fs r).1 k
      (fun x hx => hk x (List.mem_cons_of_mem r hx))
    simp only [pullRunAux]
    exact ⟨hrec.1.trans hstep.1, hrec.2.trans hstep.2⟩

theorem pullStepUnchangedOfConditions (now : Int) (force : Bool)
    (snap : String → Option IssueFile) (fs : Store) (r : Issue)
    (hcond1 : ((snap r.Number).isSome &&
      pullLocalChanged (snap r.Number) (fs.originals r.Number) && !force) = false)
    (hcond2 : ((fs.originals r.Number).isSome &&
      !pullContentChanged (snap r.Number) (pulledIssue now r) &&
      !pullPathChanged (snap r.Number) (pullTargetPath (pulledIssue now r))) = true) :
    pullStep now force snap fs r = (fs, PullClass.unchanged) := by
  simp only [pullStep, pulledNumber, hcond1, hcond2]
  simp

theorem pullStepCases (now : Int) (force : Bool) (snap : String → Option IssueFile)
    (fs : Store) (r : Issue) :
    pullStep now force snap fs r = (fs, PullClass.conflict) ∨
    (pullStep now force snap fs r = (fs, PullClass.unchanged) ∧
      ((snap r.Number).isSome &&
        pullLocalChanged (snap r.Number) (fs.originals r.Number) && !force) = false ∧
      ((fs.originals r.Number).isSome &&
        !pullContentChanged (snap r.Number) (pulledIssue now r) &&
        !pullPathChanged (snap r.Number) (pullTargetPath (pulledIssue now r))) = true) ∨
    ((pullStep now force snap fs r).1 =
      { locals := updFun fs.locals r.Number
          (some (pulledFileImage (pulledIssue now r))),
        originals := updFun fs.originals r.Number
          (some (snapshotWire (pulledIssue now r))) } ∧
      ¬ (pullStep now force snap fs r).2 = PullClass.conflict) := by
  by_cases h1 : ((snap r.Number).isSome &&
      pullLocalChanged (snap r.Number) (fs.originals r.Number) && !force) = true
  · left
    simp only [pullStep, pulledNumber, h1]
    simp
  · have h1f : ((snap r.Number).isSome &&
        pullLocalChanged (snap r.Number) (fs.originals r.Number) && !force) = false := by
      cases hb : ((snap r.Number).isSome &&
          pullLocalChanged (snap r.Number) (fs.originals r.Number) && !force)
      · rfl
      · exact absurd hb h1
    by_cases h2 : ((fs.originals r.Number).isSome &&
        !pullContentChanged (snap r.Number) (pulledIssue now r) &&
        !pullPathChanged (snap r.Number) (pullTargetPath (pulledIssue now r))) = true
    · right; left
      exact ⟨pullStepUnchangedOfConditions now force snap fs r h1f h2, h1f, h2⟩
    · have h2f : ((fs.originals r.Number).isSome &&
          !pullContentChanged (snap r.Number) (pulledIssue now r) &&
          !pullPathChanged (snap r.Number) (pullTargetPath (pulledIssue now r))) = false := by
        cases hb : ((fs.originals r.Number).isSome &&
            !pullContentChanged (snap r.Number) (pulledIssue now r) &&
            !pullPathChanged (snap r.Number) (pullTargetPath (pulledIssue now r)))
        · rfl
        · exact absurd hb h2
      right; right
      constructor
      · simp only [pullStep, pulledNumber, h1f, h2f]
        simp
      · simp only [pullStep, pulledNumber, h1f, h2f]
        simp
        split <;> simp

theorem charEqOfToNat (a b : Char) (h : a.toNat = b.toNat) : a = b := by
  cases a; cases b
  simp only [Char.toNat] at h
  congr 1
  exact UInt32.toNat.inj h

theorem lexLtIrrefl : ∀ l : List Char, lexLt l l = false := by
  intro l
  induction l with
  | nil => rfl
  | cons a as ih => simp [lexLt, ih]

theorem lexLtAsymm : ∀ a b : List Char, lexLt a b = true → lexLt b a = false := by
  intro a
  induction a with
  | nil =>
    intro b h
    cases b with
    | nil => simp [lexLt] at h
    | cons y ys => simp [lexLt]
  | cons x xs ih =>
    intro b h
    cases b with
    | nil => simp [lexLt] at h
    | cons y ys =>
      by_cases h1 : x.toNat < y.toNat
      · have h2 : ¬ y.toNat < x.toNat := by omega
        simp [lexLt, h1, h2]
      · by_cases h2 : y.toNat < x.toNat
        · simp [lexLt, h1, h2] at h
        · simp [lexLt, h1, h2] at h ⊢
          exact ih ys h

theorem lexLtTrans : ∀ a b c : List Char,
    lexLt a b = true → lexLt b c = true → lexLt a c = true := by
  intro a
  induction a with
  | nil =>
    intro b c hab hbc
    cases c with
    | nil =>
      cases b with
      | nil => simp [lexLt] at hab
      | cons y ys => simp [lexLt] at hbc
    | cons z zs => simp [lexLt]
  | cons x xs ih =>
    intro b c hab hbc
    cases b with
    | nil => simp [lexLt] at hab
    | cons y ys =>
      cases c with
      | nil => simp [lexLt] at hbc
      | cons z zs =>
        by_cases h1 : x.toNat < y.toNat
        · by_cases h2 : y.toNat < z.toNat
          · have h3 : x.toNat < z.toNat := by omega
            simp [lexLt, h3]
          · by_cases h3 : z.toNat < y.toNat
            · simp [lexLt, h2, h3] at hbc
            · have h4 : x.toNat < z.toNat := by omega
              simp [lexLt, h4]
        · by_cases h1b : y.toNat < x.toNat
          · simp [lexLt, h1, h1b] at hab
          · simp [lexLt, h1, h1b] at hab
            by_cases h2 : y.toNat < z.toNat
            · have h3 : x.toNat < z.toNat := by omega
              simp [lexLt, h3]
            · by_cases h3 : z.toNat < y.toNat
              · simp [lexLt, h2, h3] at hbc
              · simp [lexLt, h2, h3] at hbc
                have h4 : ¬ x.toNat < z.toNat := by omega
                have h5 : ¬ z.toNat < x.toNat := by omega
                simp [lexLt, h4, h5]
                exact ih ys zs hab hbc

theorem lexLtConnex : ∀ a b : List Char, ¬ a = b →
    lexLt a b = true ∨ lexLt b a = true := by
  intro a
  induction a with
  | nil =>
    intro b hne
    cases b with
    | nil => exact absurd rfl hne
    | cons y ys => left; simp [lexLt]
  | cons x xs ih =>
    intro b hne
    cases b with
    | nil => right; simp [lexLt]
    | cons y ys =>
      rcases Nat.lt_trichotomy x.toNat y.toNat with h | h | h
      · left; simp [lexLt, h]
      · have hxy : x = y := charEqOfToNat x y h
        subst hxy
        have hne2 : ¬ xs = ys := by
          intro hc
          exact hne (by rw [hc])
        rcases ih ys hne2 with h2 | h2
        · left; simp [lexLt, h2]
        · right; simp [lexLt, h2]
      · right; simp [lexLt, h]

theorem strDataInj (a b : String) (h : a.data = b.data) : a = b := by
  cases a; cases b
  exact congrArg String.mk h

theorem insertStrPerm (x : String) : ∀ l : List String, (insertStr x l).Perm (x :: l) := by
  intro l
  induction l with
  | nil => exact List.Perm.refl _
  | cons y ys ih =>
    by_cases h : strLt x y
    · simp [insertStr, h]
    · simp only [insertStr, h, if_false, Bool.false_eq_true]
      exact (ih.cons y).trans (List.Perm.swap x y ys)

theorem sortStrsPerm : ∀ l : List String, (sortStrs l).Perm l := by
  intro l
  induction l with
  | nil => exact List.Perm.refl _
  | cons x xs ih => exact (insertStrPerm x (sortStrs xs)).trans (ih.cons x)

theorem insertStrSorted (x : String) :
    ∀ l : List String,
      List.Pairwise (fun a b : String => strLt b a = false) l →
      List.Pairwise (fun a b : String => strLt b a = false) (insertStr x l) := by
  intro l
  induction l with
  | nil => intro _; simp [insertStr]
  | cons y ys ih =>
    intro hp
    rw [List.pairwise_cons] at hp
    obtain ⟨hy, hys⟩ := hp
    by_cases h : strLt x y
    · simp only [insertStr, h, if_true]
      rw [List.pairwise_cons]
      constructor
      · intro z hz
        rcases List.mem_cons.mp hz with hz1 | hz1
        · rw [hz1]
          exact lexLtAsymm x.data y.data h
        · have hyz := hy z hz1
          cases hzx : strLt z x with
          | false => rfl
          | true =>
            have h2 : lexLt z.data y.data = true := lexLtTrans z.data x.data y.data hzx h
            simp only [strLt] at hyz
            rw [hyz] at h2
            simp at h2
      · rw [List.pairwise_cons]
        exact ⟨hy, hys⟩
    · simp only [insertStr, h, if_false, Bool.false_eq_true]
      rw [List.pairwise_cons]
      constructor
      · intro z hz
        have hz2 : z ∈ x :: ys := (insertStrPerm x ys).mem_iff.mp hz
        rcases List.mem_cons.mp hz2 with hz3 | hz3
        · rw [hz3]
          cases hb : strLt x y with
          | false => rfl
          | true => exact absurd hb h
        · exact hy z hz3
      · exact ih hys

theorem sortStrsSorted : ∀ l : List String,
    List.Pairwise (fun a b : String => strLt b a = false) (sortStrs l) := by
  intro l
  induction l with
  | nil => simp [sortStrs]
  | cons x xs ih => exact insertStrSorted x (sortStrs xs) ih

theorem sortStrsOfSortedNodup : ∀ l : List String,
    List.Pairwise (fun a b : String => strLt b a = false) l → l.Nodup →
    sortStrs l = l := by
  intro l
  induction l with
  | nil => intro _ _; rfl
  | cons x xs ih =>
    intro hp hn
    rw [List.pairwise_cons] at hp
    obtain ⟨hx, hxs⟩ := hp
    rw [List.nodup_cons] at hn
    obtain ⟨hxmem, hxsn⟩ := hn
    have hrec : sortStrs xs = xs := ih hxs hxsn
    show insertStr x (sortStrs xs) = x :: xs
    rw [hrec]
    cases xs with
    | nil => rfl
    | cons y ys =>
      have hne : ¬ x = y := by
        intro hc
        exact hxmem (by rw [hc]; simp)
      have hxy : strLt x y = true := by
        rcases lexLtConnex x.data y.data
            (fun hc => hne (strDataInj x y hc)) with h1 | h1
        · exact h1
        · have h3 := hx y (by simp)
          simp only [strLt] at h3
          rw [h3] at h1
          simp at h1
      simp [insertStr, hxy]

theorem dropWhileOfHeadFalse (p : Char → Bool) (l : List Char)
    (h : ∀ c, l.head? = some c → p c = false) : l.dropWhile p = l := by
  cases l with
  | nil => rfl
  | cons x xs =>
    have hx : p x = false := h x rfl
    rw [List.dropWhile_cons_of_neg (by rw [hx]; simp)]

theorem trimSpaceLIdem (l : List Char) : trimSpaceL (trimSpaceL l) = trimSpaceL l := by
  have hpre : ((l.dropWhile isSpaceChar).reverse.dropWhile isSpaceChar).reverse <+:
      l.dropWhile isSpaceChar := by
    have h := List.dropWhile_suffix (l := (l.dropWhile isSpaceChar).reverse) isSpaceChar
    have h2 := List.reverse_prefix.mpr h
    simpa using h2
  have hstep1 : (((l.dropWhile isSpaceChar).reverse.dropWhile isSpaceChar).reverse).dropWhile
      isSpaceChar = ((l.dropWhile isSpaceChar).reverse.dropWhile isSpaceChar).reverse := by
    apply dropWhileOfHeadFalse
    intro c hc
    obtain ⟨t, ht⟩ := hpre
    have hl1 : (l.dropWhile isSpaceChar).head? = some c := by
      rw [← ht]
      cases hA : ((l.dropWhile isSpaceChar).reverse.dropWhile isSpaceChar).reverse with
      | nil => rw [hA] at hc; simp at hc
      | cons d ds =>
        rw [hA] at hc
        simp at hc
        simp [hc]
    exact dropWhileHeadFalse isSpaceChar l c hl1
  have hstep2 : ((l.dropWhile isSpaceChar).reverse.dropWhile isSpaceChar).dropWhile
      isSpaceChar = (l.dropWhile isSpaceChar).reverse.dropWhile isSpaceChar := by
    apply dropWhileOfHeadFalse
    intro c hc
    exact dropWhileHeadFalse isSpaceChar (l.dropWhile isSpaceChar).reverse c hc
  show ((((trimSpaceL l).dropWhile isSpaceChar).reverse).dropWhile isSpaceChar).reverse =
    trimSpaceL l
  show (((((l.dropWhile isSpaceChar).reverse.dropWhile isSpaceChar).reverse).dropWhile
    isSpaceChar).reverse.dropWhile isSpaceChar).reverse = _
  rw [hstep1]
  rw [List.reverse_reverse]
  rw [hstep2]
  rfl

theorem cleanCondIff (t : String) (seen : List String) :
    ((decide (t = "") || seen.contains t) = true) ↔ (t = "" ∨ t ∈ seen) := by
  simp [List.contains, List.elem_iff]

theorem trimSpaceIdem (s : String) : trimSpace (trimSpace s) = trimSpace s := by
  show String.mk (trimSpaceL (trimSpaceL s.data)) = String.mk (trimSpaceL s.data)
  rw [trimSpaceLIdem]

theorem cleanMemProps : ∀ (items seen : List String) (x : String),
    x ∈ cleanStrings items seen →
    trimSpace x = x ∧ ¬ x = "" ∧ ¬ x ∈ seen := by
  intro items
  induction items with
  | nil => intro seen x h; simp [cleanStrings] at h
  | cons y ys ih =>
    intro seen x h
    by_cases h1 : trimSpace y = ""
    · rw [cleanStrings, if_pos ((cleanCondIff _ _).mpr (Or.inl h1))] at h
      exact ih seen x h
    · by_cases h2 : trimSpace y ∈ seen
      · rw [cleanStrings, if_pos ((cleanCondIff _ _).mpr (Or.inr h2))] at h
        exact ih seen x h
      · rw [cleanStrings, if_neg (fun hc => by
          rcases (cleanCondIff _ _).mp hc with h3 | h3
          · exact h1 h3
          · exact h2 h3)] at h
        rcases List.mem_cons.mp h with h3 | h3
        · subst h3
          exact ⟨trimSpaceIdem y, h1, h2⟩
        · have h4 := ih (trimSpace y :: seen) x h3
          exact ⟨h4.1, h4.2.1, fun hm => h4.2.2 (List.mem_cons_of_mem _ hm)⟩

theorem cleanNodup : ∀ (items seen : List String), (cleanStrings items seen).Nodup := by
  intro items
  induction items with
  | nil => intro seen; simp [cleanStrings]
  | cons y ys ih =>
    intro seen
    by_cases h1 : trimSpace y = ""
    · rw [cleanStrings, if_pos ((cleanCondIff _ _).mpr (Or.inl h1))]
      exact ih seen
    · by_cases h2 : trimSpace y ∈ seen
      · rw [cleanStrings, if_pos ((cleanCondIff _ _).mpr (Or.inr h2))]
        exact ih seen
      · rw [cleanStrings, if_neg (fun hc => by
          rcases (cleanCondIff _ _).mp hc with h3 | h3
          · exact h1 h3
          · exact h2 h3)]
        rw [List.nodup_cons]
        constructor
        · intro hmem
          have h4 := cleanMemProps ys (trimSpace y :: seen) (trimSpace y) hmem
          exact h4.2.2 (by simp)
        · exact ih (trimSpace y :: seen)

theorem cleanOfClean : ∀ (l seen : List String),
    (∀ x ∈ l, trimSpace x = x ∧ ¬ x = "") → l.Nodup →
    (∀ x ∈ l, ¬ x ∈ seen) → cleanStrings l seen = l := by
  intro l
  induction l with
  | nil => intro seen _ _ _; rfl
  | cons x xs ih =>
    intro seen hprops hnodup hseen
    have hx := hprops x (by simp)
    rw [List.nodup_cons] at hnodup
    rw [cleanStrings]
    rw [hx.1]
    rw [if_neg (fun hc => by
      rcases (cleanCondIff _ _).mp hc with h3 | h3
      · exact hx.2 h3
      · exact hseen x (by simp) h3)]
    congr 1
    apply ih (x :: seen)
    · intro z hz
      exact hprops z (List.mem_cons_of_mem x hz)
    · exact hnodup.2
    · intro z hz
      rw [List.mem_cons]
      push_neg
      constructor
      · intro hc
        exact hnodup.1 (hc ▸ hz)
      · exact hseen z (List.mem_cons_of_mem x hz)

theorem sortedStringsEq (l : List String) :
    sortedStrings l = sortStrs (cleanStrings l []) := by
  cases l with
  | nil => rfl
  | cons x xs => rfl

theorem sortedStringsIdem (l : List String) :
    sortedStrings (sortedStrings l) = sortedStrings l := by
  have hmem : ∀ z ∈ sortedStrings l, trimSpace z = z ∧ ¬ z = "" := by
    intro z hz
    rw [sortedStringsEq] at hz
    have hz2 := (sortStrsPerm (cleanStrings l [])).mem_iff.mp hz
    have h3 := cleanMemProps l [] z hz2
    exact ⟨h3.1, h3.2.1⟩
  have hnodup : (sortedStrings l).Nodup := by
    rw [sortedStringsEq]
    exact (sortStrsPerm (cleanStrings l [])).nodup_iff.mpr (cleanNodup l [])
  have hsorted : List.Pairwise (fun a b : String => strLt b a = false)
      (sortedStrings l) := by
    rw [sortedStringsEq]
    exact sortStrsSorted (cleanStrings l [])
  rw [sortedStringsEq (sortedStrings l)]
  rw [cleanOfClean (sortedStrings l) [] hmem hnodup (by simp)]
  exact sortStrsOfSortedNodup _ hsorted hnodup

theorem sortedRefsEqStrings (l : List String) : sortedRefs l = sortedStrings l := by
  cases l <;> rfl

theorem sortedRefsIdem (l : List String) :
    sortedRefs (sortedRefs l) = sortedRefs l := by
  rw [sortedRefsEqStrings, sortedRefsEqStrings, sortedStringsIdem]

theorem replaceCRLFOfNoCR :
    ∀ l : List Char, (∀ c ∈ l, ¬ c = '\r') → replaceAllCRLF l = l := by
  intro l
  induction l using replaceAllCRLF.induct with
  | case1 rest ih =>
    intro h
    exact absurd rfl (h '\r' (by simp))
  | case2 x rest hne ih =>
    intro h
    rw [replaceAllCRLF.eq_def]
    match x, rest, hne, ih, h with
    | '\r', '\n' :: r2, hne, ih, h => exact (hne r2 rfl rfl).elim
    | x, rest, hne, ih, h =>
      have hr : replaceAllCRLF rest = rest :=
        ih (fun c hc => h c (List.mem_cons_of_mem x hc))
      cases x <;> cases rest <;> simp_all
  | case3 => intro _; rfl

theorem normalizeBodyKeepsNoCR (s : String) (h : ∀ c ∈ s.data, ¬ c = '\r') :
    ∀ c ∈ (normalizeBody s).data, ¬ c = '\r' := by
  intro c hc hcontra
  rcases memNormalizeBody s c hc with h1 | h1
  · exact h c h1 hcontra
  · rw [hcontra] at h1
    simp at h1

theorem normalizeBodyIdemOfNoCR (s : String) (h : ∀ c ∈ s.data, ¬ c = '\r') :
    normalizeBody (normalizeBody s) = normalizeBody s := by
  have hnoCR := normalizeBodyKeepsNoCR s h
  have hrep : replaceAllCRLF (normalizeBody s).data = (normalizeBody s).data :=
    replaceCRLFOfNoCR _ hnoCR
  have hdrop : ((normalizeBody s).data).dropWhile (fun c => c = '\n') =
      (normalizeBody s).data := by
    apply dropWhileOfHeadFalse
    intro c hc
    have := normalizeBodyHeadNe s
    cases hval : decide (c = '\n') with
    | false => simpa using hval
    | true =>
      have hcn : c = '\n' := by simpa using hval
      rw [hcn] at hc
      exact absurd hc this
  rcases normalizeBodyLastNl s with hemp | hlast
  · rw [hemp]
    rfl
  · have hne : (normalizeBody s).data ≠ [] := by
      intro hc
      rw [hc] at hlast
      simp at hlast
    rw [normalizeBody]
    rw [hrep, hdrop]
    rw [if_neg hne, if_pos hlast]

theorem equalIssuesOfNormalizeEq (a b : Issue) (f : Bool)
    (h : Normalize a = Normalize b) : equalIssues a b f = true := by
  simp only [equalIssues]
  rw [h]
  simp [stringSlicesEqualRefl, refSlicesEqualRefl]

theorem renderParseNormalizeEq (i : Issue)
    (hn1 : ∀ c ∈ i.Number.data, ¬ c = '-')
    (hn2 : ∀ c ∈ i.Number.data, ¬ c = '/')
    (hbody0 : normalizeBody (normalizeBody i.Body) = normalizeBody i.Body)
    (hparent : ∀ r, i.Parent = some r → ¬ r = "" ∧ refWire r = r)
    (hbb : ∀ r ∈ sortedRefs i.BlockedBy, refWire r = r)
    (hbl : ∀ r ∈ sortedRefs i.Blocks, refWire r = r) :
    Normalize (RenderParse i) = Normalize i := by
  have hnum := fileNameNumberRoundTrip i.Number i.Title hn1 hn2
  have hpar : parentWire i.Parent = i.Parent := by
    cases hp : i.Parent with
    | none => rfl
    | some r =>
      have h2 := hparent r hp
      simp [parentWire, h2.1, h2.2]
  have hbbmap : (sortedRefs i.BlockedBy).map refWire = sortedRefs i.BlockedBy := by
    have h3 : (sortedRefs i.BlockedBy).map refWire =
        (sortedRefs i.BlockedBy).map (fun r => r) := List.map_congr_left hbb
    simpa using h3
  have hblmap : (sortedRefs i.Blocks).map refWire = sortedRefs i.Blocks := by
    have h3 : (sortedRefs i.Blocks).map refWire =
        (sortedRefs i.Blocks).map (fun r => r) := List.map_congr_left hbl
    simpa using h3
  have hbody : normalizeBody (normalizeBody (normalizeBody i.Body)) =
      normalizeBody i.Body := by
    rw [hbody0, hbody0]
  by_cases hinfo : (!(i.Author == "") || i.CreatedAt.isSome || i.UpdatedAt.isSome) = true
  · simp only [Normalize, RenderParse, hinfo]
    simp [hnum, hpar, hbbmap, hblmap, hbody, sortedStringsIdem, sortedRefsIdem]
  · have hflat : i.Author = "" ∧ i.CreatedAt = none ∧ i.UpdatedAt = none := by
      simp at hinfo
      exact ⟨hinfo.1.1, hinfo.1.2, hinfo.2⟩
    have hinfof : (!(i.Author == "") || i.CreatedAt.isSome || i.UpdatedAt.isSome) = false := by
      simp [hflat.1, hflat.2.1, hflat.2.2]
    simp only [Normalize, RenderParse, hinfof]
    simp [hnum, hpar, hbbmap, hblmap, hbody, sortedStringsIdem, sortedRefsIdem,
      hflat.1, hflat.2.1, hflat.2.2]

/-- An issue whose parent reference uses a non-canonical decimal spelling. -/
def oddRefIssue : Issue :=
  { emptyIssue with Number := "6", Title := "t", Parent := some "042" }

/-- C6 counterexample: the reference "042" (no dash in the id, an ordinary
populated parent field) marshals as the YAML integer 42 and re-parses as "42",
so serialize-then-parse is not strictly equal to the original issue. -/
theorem renderParse_claim_counterexample :
    (RenderParse oddRefIssue).Parent = some "42" ∧
    EqualIgnoringSyncedAt (RenderParse oddRefIssue) oddRefIssue = false := by
  refine ⟨by decide, by decide⟩

/-- C6 (amended): for every Issue whose id contains neither a dash nor a path
separator, whose body is carriage-return free, and whose references (parent,
blocked_by, blocks) are temporary ids or canonical decimals (fixed points of
the YAML integer round-trip), serializing and re-parsing — with the id
re-derived from the generated filename — yields an Issue strictly equal to the
original (strict equality ignoring only synced_at), for any combination of
populated or empty optional fields. -/
theorem renderParse_roundTrip (i : Issue)
    (hn1 : ∀ c ∈ i.Number.data, ¬ c = '-')
    (hn2 : ∀ c ∈ i.Number.data, ¬ c = '/')
    (hbody0 : ∀ c ∈ i.Body.data, ¬ c = '\r')
    (hparent : ∀ r, i.Parent = some r → ¬ r = "" ∧ refWire r = r)
    (hbb : ∀ r ∈ sortedRefs i.BlockedBy, refWire r = r)
    (hbl : ∀ r ∈ sortedRefs i.Blocks, refWire r = r) :
    EqualIgnoringSyncedAt (RenderParse i) i = true :=
  equalIssuesOfNormalizeEq _ _ false
    (renderParseNormalizeEq i hn1 hn2 (normalizeBodyIdemOfNoCR i.Body hbody0)
      hparent hbb hbl)

/-- An issue with every optional field populated. -/
def fullIssue : Issue :=
  { Number := "12", Title := "Add Dark Mode!", Labels := ["b", "a", "a"],
    Assignees := ["zoe"], Milestone := "v1", IssueType := "Feature",
    Projects := ["Road map"], State := "closed", StateReason := some "completed",
    Parent := some "7", BlockedBy := ["T3", "15"], Blocks := ["9"],
    SyncedAt := some 100, Body := "Hello\nWorld", Author := "ann",
    CreatedAt := some 5, UpdatedAt := some 6 }

/-- C6 witness: the round-trip evaluated with every optional field populated
and with every optional field empty. -/
theorem renderParse_roundTrip_witness :
    EqualIgnoringSyncedAt (RenderParse fullIssue) fullIssue = true ∧
    EqualIgnoringSyncedAt (RenderParse emptyIssue) emptyIssue = true := by
  constructor
  · exact renderParse_roundTrip fullIssue (by decide) (by decide) (by decide)
      (by
        intro r hr
        simp [fullIssue] at hr
        subst hr
        exact ⟨by decide, by decide⟩)
      (by decide) (by decide)
  · exact renderParse_roundTrip emptyIssue (by decide) (by decide) (by decide)
      (by
        intro r hr
        simp [emptyIssue] at hr)
      (by decide) (by decide)

theorem issueWithStateEq (x : Issue) (v : String) (h : x.State = v) :
    { x with State := v } = x := by
  rw [← h]

theorem issueWithNumberEq (x : Issue) (v : String) (h : x.Number = v) :
    { x with Number := v } = x := by
  rw [← h]

theorem renderParseNumber (i : Issue) :
    (RenderParse i).Number = numberFromFilename (FileName i.Number i.Title) := rfl

theorem renderParseState (i : Issue) : (RenderParse i).State = i.State := rfl

theorem numberMdRoundTrip (n : String)
    (h1 : ∀ c ∈ n.data, ¬ c = '-') (h2 : ∀ c ∈ n.data, ¬ c = '/') :
    numberFromFilename (n ++ ".md") = n := by
  unfold numberFromFilename
  have hd : (n ++ ".md").data = n.data ++ ['.', 'm', 'd'] := rfl
  rw [hd]
  rw [afterLastSlashId _ (by
    intro c hc
    rcases List.mem_append.mp hc with hc1 | hc1
    · exact h2 c hc1
    · intro hcontra
      rw [hcontra] at hc1
      simp at hc1)]
  rw [trimSuffixMdAppend]
  rw [takeWhileAll _ n.data (fun c hc => by simpa using h1 c hc)]

theorem equalIssuesCongrLeft (a b c : Issue) (f : Bool)
    (h : Normalize a = Normalize b) : equalIssues a c f = equalIssues b c f := by
  simp only [equalIssues]
  rw [h]

theorem pulledFileImagePath (r1 : Issue) :
    (pulledFileImage r1).Path = pullTargetPath r1 := rfl

theorem pulledFileImageIssue (now : Int) (r : Issue)
    (hstate : lowerAscii r.State = "open" ∨ lowerAscii r.State = "closed") :
    (pulledFileImage (pulledIssue now r)).Issue = RenderParse (pulledIssue now r) := by
  show { RenderParse (pulledIssue now r) with
    State := if (pulledIssue now r).State = "closed" then "closed" else "open" } =
    RenderParse (pulledIssue now r)
  apply issueWithStateEq
  rw [renderParseState]
  have hs : (pulledIssue now r).State = lowerAscii r.State := rfl
  rw [hs]
  rcases hstate with h | h <;> rw [h] <;> decide

theorem snapshotWireEq (i : Issue)
    (h1 : ∀ c ∈ i.Number.data, ¬ c = '-') (h2 : ∀ c ∈ i.Number.data, ¬ c = '/') :
    snapshotWire i = RenderParse i := by
  show { RenderParse i with Number := numberFromFilename (i.Number ++ ".md") } =
    RenderParse i
  apply issueWithNumberEq
  rw [renderParseNumber]
  rw [numberMdRoundTrip i.Number h1 h2]
  exact fileNameNumberRoundTrip i.Number i.Title h1 h2

/-- Hypotheses under which a pulled record survives the write/re-parse cycle
unchanged: an id the filename round-trip preserves, a body on which
normalizeBody is idempotent, references fixed by the YAML integer round-trip,
and a state that lower-cases to one of the two container states. -/
def pullRoundTrips (r : Issue) : Prop :=
  (∀ c ∈ r.Number.data, ¬ c = '-') ∧
  (∀ c ∈ r.Number.data, ¬ c = '/') ∧
  normalizeBody (normalizeBody r.Body) = normalizeBody r.Body ∧
  (∀ rr, r.Parent = some rr → ¬ rr = "" ∧ refWire rr = rr) ∧
  (∀ rr ∈ sortedRefs r.BlockedBy, refWire rr = rr) ∧
  (∀ rr ∈ sortedRefs r.Blocks, refWire rr = rr) ∧
  (lowerAscii r.State = "open" ∨ lowerAscii r.State = "closed")

theorem pullRunAuxIdem (now1 now2 : Int) (force : Bool) :
    ∀ (rs : List Issue) (snap : String → Option IssueFile) (fs : Store),
      (rs.map Issue.Number).Nodup →
      (∀ r ∈ rs, pullRoundTrips r) →
      (∀ r ∈ rs, snap r.Number = fs.locals r.Number) →
      ¬ PullClass.conflict ∈ (pullRunAux now1 force snap fs rs).2 →
      pullRunAux now2 force (pullRunAux now1 force snap fs rs).1.locals
          (pullRunAux now1 force snap fs rs).1 rs =
        ((pullRunAux now1 force snap fs rs).1,
          rs.map (fun _ => PullClass.unchanged)) := by
  intro rs
  induction rs with
  | nil => intro snap fs _ _ _ _; rfl
  | cons r rest ih =>
    intro snap fs hnodup hRT hagree hnoconf
    have hnodup2 : (rest.map Issue.Number).Nodup := (List.nodup_cons.mp hnodup).2
    have hnotin : r.Number ∉ rest.map Issue.Number := (List.nodup_cons.mp hnodup).1
    have hkeys : ∀ x ∈ rest, ¬ r.Number = x.Number := by
      intro x hx heq
      exact hnotin (heq ▸ List.mem_map_of_mem Issue.Number hx)
    obtain ⟨hA, hB, hC, hD, hE, hF, hG⟩ := hRT r (by simp)
    simp only [pullRunAux] at hnoconf ⊢
    rw [List.mem_cons] at hnoconf
    push_neg at hnoconf
    obtain ⟨hc1ne, hnoconf2⟩ := hnoconf
    have hagree2 : ∀ x ∈ rest, snap x.Number = (pullStep now1 force snap fs r).1.locals x.Number := by
      intro x hx
      have h1 := hagree x (List.mem_cons_of_mem r hx)
      have h2 := pullStepOtherKeys now1 force snap fs r x.Number
        (fun heq => hkeys x hx heq.symm)
      exact h1.trans h2.1.symm
    have ihres := ih snap (pullStep now1 force snap fs r).1 hnodup2
      (fun x hx => hRT x (List.mem_cons_of_mem r hx)) hagree2
      (fun hmem => hnoconf2 hmem)
    have hfs1 := pullRunAuxOtherKeys now1 force rest snap
      (pullStep now1 force snap fs r).1 r.Number hkeys
    rcases pullStepCases now1 force snap fs r with hconf | ⟨hstep, hc1, hc2⟩ | ⟨hstore, hnc⟩
    · exact absurd (by rw [hconf]) hc1ne
    · have hfsB : (pullStep now1 force snap fs r).1 = fs := by rw [hstep]
      have hloc : (pullRunAux now1 force snap (pullStep now1 force snap fs r).1 rest).1.locals
          r.Number = snap r.Number := by
        rw [hfs1.1, hfsB]
        exact (hagree r (by simp)).symm
      have horig : (pullRunAux now1 force snap (pullStep now1 force snap fs r).1 rest).1.originals
          r.Number = fs.originals r.Number := by
        rw [hfs1.2, hfsB]
      have hcond1 : (((pullRunAux now1 force snap (pullStep now1 force snap fs r).1 rest).1.locals
            r.Number).isSome &&
          pullLocalChanged
            ((pullRunAux now1 force snap (pullStep now1 force snap fs r).1 rest).1.locals r.Number)
            ((pullRunAux now1 force snap (pullStep now1 force snap fs r).1 rest).1.originals r.Number) &&
          !force) = false := by
        rw [hloc, horig]; exact hc1
      have hcond2 : (((pullRunAux now1 force snap (pullStep now1 force snap fs r).1 rest).1.originals
            r.Number).isSome &&
          !pullContentChanged
            ((pullRunAux now1 force snap (pullStep now1 force snap fs r).1 rest).1.locals r.Number)
            (pulledIssue now2 r) &&
          !pullPathChanged
            ((pullRunAux now1 force snap (pullStep now1 force snap fs r).1 rest).1.locals r.Number)
            (pullTargetPath (pulledIssue now2 r))) = true := by
        rw [hloc, horig, contentPulledIrrel (snap r.Number) now2 now1 r,
          pathPulledIrrel now2 now1 r]
        exact hc2
      have hstep2 := pullStepUnchangedOfConditions now2 force
        (pullRunAux now1 force snap (pullStep now1 force snap fs r).1 rest).1.locals
        (pullRunAux now1 force snap (pullStep now1 force snap fs r).1 rest).1 r hcond1 hcond2
      simp only [pullRunAux, hstep2, ihres]
      rfl
    · have hloc : (pullRunAux now1 force snap (pullStep now1 force snap fs r).1 rest).1.locals
          r.Number = some (pulledFileImage (pulledIssue now1 r)) := by
        rw [hfs1.1, hstore]
        simp [updFun]
      have horig : (pullRunAux now1 force snap (pullStep now1 force snap fs r).1 rest).1.originals
          r.Number = some (snapshotWire (pulledIssue now1 r)) := by
        rw [hfs1.2, hstore]
        simp [updFun]
      have hIss : (pulledFileImage (pulledIssue now1 r)).Issue =
          RenderParse (pulledIssue now1 r) := pulledFileImageIssue now1 r hG
      have hSnap : snapshotWire (pulledIssue now1 r) =
          RenderParse (pulledIssue now1 r) := snapshotWireEq (pulledIssue now1 r) hA hB
      have hNormEq : Normalize (RenderParse (pulledIssue now1 r)) =
          Normalize (pulledIssue now1 r) :=
        renderParseNormalizeEq (pulledIssue now1 r) hA hB hC hD hE hF
      have hEq2 : equalIssues (RenderParse (pulledIssue now1 r))
          (pulledIssue now2 r) false = true := by
        rw [equalIssuesCongrLeft (RenderParse (pulledIssue now1 r))
          (pulledIssue now1 r) (pulledIssue now2 r) false hNormEq]
        exact equalPulledSelf now1 now2 r false
      have hcond1 : (((pullRunAux now1 force snap (pullStep now1 force snap fs r).1 rest).1.locals
            r.Number).isSome &&
          pullLocalChanged
            ((pullRunAux now1 force snap (pullStep now1 force snap fs r).1 rest).1.locals r.Number)
            ((pullRunAux now1 force snap (pullStep now1 force snap fs r).1 rest).1.originals r.Number) &&
          !force) = false := by
        rw [hloc, horig]
        simp [pullLocalChanged, hIss, hSnap, EqualIgnoringSyncedAt, equalIssuesRefl]
      have hcond2 : (((pullRunAux now1 force snap (pullStep now1 force snap fs r).1 rest).1.originals
            r.Number).isSome &&
          !pullContentChanged
            ((pullRunAux now1 force snap (pullStep now1 force snap fs r).1 rest).1.locals r.Number)
            (pulledIssue now2 r) &&
          !pullPathChanged
            ((pullRunAux now1 force snap (pullStep now1 force snap fs r).1 rest).1.locals r.Number)
            (pullTargetPath (pulledIssue now2 r))) = true := by
        rw [hloc, horig, pathPulledIrrel now2 now1 r]
        simp [pullContentChanged, pullPathChanged, hIss, pulledFileImagePath,
          EqualIgnoringSyncedAt, hEq2]
      have hstep2 := pullStepUnchangedOfConditions now2 force
        (pullRunAux now1 force snap (pullStep now1 force snap fs r).1 rest).1.locals
        (pullRunAux now1 force snap (pullStep now1 force snap fs r).1 rest).1 r hcond1 hcond2
      simp only [pullRunAux, hstep2, ihres]
      rfl

/-- The empty local store. -/
def emptyStore : Store := { locals := fun _ => none, originals := fun _ => none }

/-- A remote record whose body breaks normalizeBody idempotence: the file
written by the first pull re-parses with body LF a LF LF while the remote
normalizes to CR LF a LF LF. -/
def crlfRemote : Issue :=
  { emptyIssue with
    Number := "4", Title := "b", State := "open", Body := "\r\r\na\n\n" }

/-- C7 counterexample: the record is added conflict-free on the first Pull,
yet the second Pull re-parses the written file, finds its body differs from
the freshly normalized remote (Parse after Render is not the identity on this
body), rewrites the file and reports it updated — the second run neither
writes nothing nor classifies every record unchanged. -/
theorem pull_idempotence_claim_counterexample :
    (pullRun 1 false emptyStore [crlfRemote]).2 = [PullClass.added] ∧
    (pullRun 2 false (pullRun 1 false emptyStore [crlfRemote]).1 [crlfRemote]).2 =
      [PullClass.updated] ∧
    ¬ (pullRun 2 false (pullRun 1 false emptyStore [crlfRemote]).1 [crlfRemote]).2 =
      [PullClass.unchanged] := by
  refine ⟨by decide, by decide, by decide⟩

/-- C7 (amended): when the fetched records have pairwise-distinct numbers,
each record survives the write/re-parse cycle (id preserved by the filename
round-trip, normalizeBody-idempotent body, canonical references, open/closed
state), and the first Pull recorded no conflict, then a second Pull over the
same remote records with no intervening local edit performs zero writes — the
store it returns is the first run's store itself — and classifies every record
unchanged.  A record conflicted in the first run is re-reported as a conflict
instead, and a record that does not round-trip is genuinely rewritten (see the
counterexample). -/
theorem pull_second_run_unchanged (now1 now2 : Int) (force : Bool) (fs : Store)
    (remotes : List Issue)
    (hNodup : (remotes.map Issue.Number).Nodup)
    (hRT : ∀ r ∈ remotes, pullRoundTrips r)
    (hNoConflict : ¬ PullClass.conflict ∈ (pullRun now1 force fs remotes).2) :
    pullRun now2 force (pullRun now1 force fs remotes).1 remotes =
      ((pullRun now1 force fs remotes).1,
        remotes.map (fun _ => PullClass.unchanged)) :=
  pullRunAuxIdem now1 now2 force remotes fs.locals fs hNodup hRT (fun _ _ => rfl)
    hNoConflict

/-- A remote record for the C7 witness (remote state arrives upper-case). -/
def w3 : Issue := { emptyIssue with Number := "3", Title := "w", State := "OPEN" }

/-- C7 witness: a fresh pull of one round-tripping record followed by a second
pull of the same record. -/
theorem pull_second_run_unchanged_witness :
    (([w3].map Issue.Number)).Nodup ∧
    pullRoundTrips w3 ∧
    ¬ PullClass.conflict ∈ (pullRun 1 false emptyStore [w3]).2 ∧
    pullRun 2 false (pullRun 1 false emptyStore [w3]).1 [w3] =
      ((pullRun 1 false emptyStore [w3]).1, [PullClass.unchanged]) := by
  have hrt : pullRoundTrips w3 := by
    refine ⟨by decide, by decide, by decide, ?_, by decide, by decide, by decide⟩
    intro rr hr
    simp [w3, emptyIssue] at hr
  refine ⟨by decide, hrt, by decide, ?_⟩
  exact pull_second_run_unchanged 1 2 false emptyStore [w3] (by decide)
    (by
      intro x hx
      rcases List.mem_singleton.mp hx with h
      rw [h]
      exact hrt)
    (by decide)
